import Mathlib

/-!
Menu editor: per-item field scoping (`EditMenuItem`) and tree nodes (`TreeMenuItem`).

A shallow embedding of `admin/src/components/EditMenuItem/index.js` and of
`admin/src/components/TreeMenuItem/index.js`.

* JavaScript objects of the declared shapes (`MenuItem`, field descriptors, the field
  schema) are Lean structures; an object with ordered keys is an association list.
* A call that can throw returns `Except JsError _`; the recursion of
  `getItemNestingLevel`, which JavaScript does not bound, takes explicit fuel.
* The closure variable `clonedFields`, which the helpers of the effect mutate, is passed
  in and returned. A second embedding of the effect keeps the schema objects and their
  arrays in a store, to state what the in-place updates leave untouched.
* A mounted `TreeMenuItem` is a state machine over clicks and re-renders.
-/

namespace StrapiMenus

/-! ## Data model -/

/-- Identifier of a menu item. The code compares identifiers with `===`, under which a
number and a string are never equal. -/
inductive JsId where
  | num (n : Int)
  | str (s : String)
  deriving DecidableEq, Repr

/-- The weak back-reference `parent: { id }` of a menu item. -/
structure ParentRef where
  id : JsId
  deriving DecidableEq, Repr

/-- A menu item, restricted to the properties the editor reads. `item_type` may be
absent (`undefined`); `parent` is `null` for a root item. -/
structure MenuItem where
  id : JsId
  title : Option String
  item_type : Option String
  parent : Option ParentRef
  deriving DecidableEq, Repr

/-- Ways in which an evaluation fails to produce a value: a JavaScript `TypeError`
(reading a property of `undefined`), or the fuel of the model running out. -/
inductive JsError where
  | typeError
  | fuelExhausted
  deriving DecidableEq, Repr

/-! ## `getItemNestingLevel` -/

/-- The source's `getItemNestingLevel(menuItems, menuItem, nestingLevel)`.

```js
if (menuItem.parent === null) return nestingLevel
const parentById = menuItems.filter((item) => item.id === menuItem.parent.id)[0]
nestingLevel += 1
return getItemNestingLevel(menuItems, parentById, nestingLevel)
```

When no item matches, `parentById` is `undefined` and the recursive call throws on
`menuItem.parent`. Each call consumes one unit of fuel. -/
def getItemNestingLevel (fuel : Nat) (menuItems : List MenuItem) (menuItem : MenuItem)
    (nestingLevel : Nat) : Except JsError Nat :=
  match fuel with
  | 0 => .error .fuelExhausted
  | fuel + 1 =>
    match menuItem.parent with
    | none => .ok nestingLevel
    | some parent =>
      match (menuItems.filter (fun item => item.id == parent.id)).head? with
      | none => .error .typeError
      | some parentById => getItemNestingLevel fuel menuItems parentById (nestingLevel + 1)

/-- Specification side of the nesting level: `ancestors` lists, in order, the items
reached from `item` by following `parent.id` to the first item of `items` with that
id, and the last item reached (or `item` itself, when `ancestors` is empty) has a
`null` parent. The chain visits `ancestors.length + 1` items. -/
def isParentChain (items : List MenuItem) : MenuItem → List MenuItem → Bool
  | item, [] => item.parent.isNone
  | item, p :: rest =>
    match item.parent with
    | none => false
    | some ref => (items.find? (fun x => x.id == ref.id) == some p) && isParentChain items p rest

/-- Specification side of a dangling reference: `ancestors` lists, in order, the items
reached from `item` by following `parent.id` to the first item of `items` with that id,
and the last item reached (or `item` itself, when `ancestors` is empty) has a parent
whose `id` matches no item of `items`. -/
def isDanglingChain (items : List MenuItem) : MenuItem → List MenuItem → Bool
  | item, [] =>
    match item.parent with
    | none => false
    | some ref => (items.find? (fun x => x.id == ref.id)).isNone
  | item, p :: rest =>
    match item.parent with
    | none => false
    | some ref =>
      (items.find? (fun x => x.id == ref.id) == some p) && isDanglingChain items p rest

/-! ## Field schema -/

/-- A translatable message `{ defaultMessage, id }`. -/
structure IntlMessage where
  defaultMessage : String
  id : String
  deriving DecidableEq, Repr

/-- The `input` part of a field descriptor. -/
structure FieldInput where
  name : String
  type : String
  required : Bool
  intlLabel : IntlMessage
  placeholder : IntlMessage
  deriving DecidableEq, Repr

/-- The `grid` part of a field descriptor. -/
structure FieldGrid where
  col : Nat
  s : Nat
  deriving DecidableEq, Repr

/-- A field descriptor `{ input: { name, ... }, grid: { col, s } }`. Every descriptor of
the declared shape has an `input` with a `name`, so the optional chaining of
`field?.input?.name` always reaches the name. -/
structure FieldDescriptor where
  input : FieldInput
  grid : FieldGrid
  deriving DecidableEq, Repr

/-- The field schema: an object whose keys are tab keys, in insertion order, each holding
the array of field descriptors of the tab. -/
abbrev FieldSchema := List (String × List FieldDescriptor)

/-- Property read `fields[key]`: the value under the first entry with that key,
`none` for `undefined`. An array, even an empty one, is truthy. -/
def getTab (fields : FieldSchema) (key : String) : Option (List FieldDescriptor) :=
  (fields.find? (fun entry => entry.1 == key)).map Prod.snd

/-- Property write `fields[key] = value`: an existing key keeps its position, a new key
is added last. -/
def setTab (fields : FieldSchema) (key : String) (value : List FieldDescriptor) :
    FieldSchema :=
  if fields.any (fun entry => entry.1 == key) then
    fields.map (fun entry => if entry.1 == key then (key, value) else entry)
  else
    fields ++ [(key, value)]

/-- The statement `delete fields[key]`. -/
def deleteTab (fields : FieldSchema) (key : String) : FieldSchema :=
  fields.filter (fun entry => entry.1 != key)

/-- The keys `Object.keys(fields)`. -/
def tabKeys (fields : FieldSchema) : List String :=
  fields.map Prod.fst

/-- Whether the schema has a tab under `key`. -/
def hasTab (fields : FieldSchema) (key : String) : Bool :=
  (getTab fields key).isSome

/-- The form state read through `useMenuData()`: `modifiedData.items`. -/
structure MenuData where
  items : List MenuItem
  deriving DecidableEq, Repr

/-! ## `Array.prototype.sort` -/

/-- Insertion of `x` into an already arranged list: before the first element that `x`
compares below (`compareFn(x, y) < 0`), after every element it does not. -/
def sortInsert {α : Type} (compareFn : α → α → Int) (x : α) : List α → List α
  | [] => [x]
  | y :: ys => if compareFn x y < 0 then x :: y :: ys else y :: sortInsert compareFn x ys

/-- The call `array.sort(compareFn)`. ECMAScript requires the sort to be stable, which
fixes the result whenever `compareFn` orders the elements consistently; this is the
stable insertion sort, taking the elements from left to right. -/
def arraySort {α : Type} (compareFn : α → α → Int) (array : List α) : List α :=
  array.foldl (fun sorted x => sortInsert compareFn x sorted) []

/-! ## The scoping effect of `EditMenuItem` -/

/-- The deep copy `JSON.parse(JSON.stringify(fields))`: on a schema of the declared
shape (strings, booleans, numbers, arrays and plain objects) the copy is structurally
equal to the original. -/
def jsonClone (fields : FieldSchema) : FieldSchema := fields

/-- The constant `IDField` built by `addIDField`. -/
def IDField : FieldDescriptor :=
  ⟨⟨"id", "string", false, ⟨"ID", "ID"⟩, ⟨"ID", "ID"⟩⟩, ⟨12, 12⟩⟩

/-- The source's `addIDField`: `clonedFields.link.unshift(IDField)` when
`clonedFields.link` is an array. -/
def addIDField (clonedFields : FieldSchema) : FieldSchema :=
  match getTab clonedFields "link" with
  | some link => setTab clonedFields "link" (IDField :: link)
  | none => clonedFields

/-- The source's `handleCardFieldsDisplay`. Destructuring `item_type` from an
`undefined` `itemById` throws. -/
def handleCardFieldsDisplay (fuel : Nat) (data : MenuItem) (modifiedData : MenuData)
    (clonedFields : FieldSchema) : Except JsError FieldSchema :=
  let id := data.id
  let items := modifiedData.items
  match (items.filter (fun item => item.id == id)).head? with
  | none => .error .typeError
  | some itemById =>
    let item_type := itemById.item_type
    match getItemNestingLevel fuel items itemById 1 with
    | .error e => .error e
    | .ok nestingLevel =>
      if item_type != some "card" || nestingLevel == 4 then
        .ok (deleteTab clonedFields "card")
      else
        .ok clonedFields

/-- The source's `handleExcludeCardFieldDisplay`. An `undefined` `itemById` makes
`getItemNestingLevel` throw on `menuItem.parent`. -/
def handleExcludeCardFieldDisplay (fuel : Nat) (data : MenuItem) (modifiedData : MenuData)
    (clonedFields : FieldSchema) : Except JsError FieldSchema :=
  let id := data.id
  let items := modifiedData.items
  match (items.filter (fun item => item.id == id)).head? with
  | none => .error .typeError
  | some itemById =>
    match getItemNestingLevel fuel items itemById 1 with
    | .error e => .error e
    | .ok nestingLevel =>
      if nestingLevel == 3 || nestingLevel == 4 then
        match getTab clonedFields "link" with
        | some link =>
          .ok (setTab clonedFields "link"
            (link.filter (fun link => link.input.name != "excluded_card_ids")))
        | none => .ok clonedFields
      else
        .ok clonedFields

/-- The source's `handleIsPinnedDisplay`. -/
def handleIsPinnedDisplay (fuel : Nat) (data : MenuItem) (modifiedData : MenuData)
    (clonedFields : FieldSchema) : Except JsError FieldSchema :=
  let id := data.id
  let items := modifiedData.items
  match (items.filter (fun item => item.id == id)).head? with
  | none => .error .typeError
  | some itemById =>
    let item_type := itemById.item_type
    match getItemNestingLevel fuel items itemById 1 with
    | .error e => .error e
    | .ok nestingLevel =>
      if item_type == some "card" || nestingLevel == 1 || nestingLevel == 2 then
        match getTab clonedFields "link" with
        | some link =>
          .ok (setTab clonedFields "link"
            (link.filter (fun link => link.input.name != "is_pinned")))
        | none => .ok clonedFields
      else
        .ok clonedFields

/-- The comparator passed to `sort` by `prioritizeItemTypeInput`. -/
def compareFields (a b : FieldDescriptor) : Int :=
  if a.input.name == "id" then -1
  else if b.input.name == "id" then 1
  else if a.input.name == "item_type" && b.input.name != "item_type" then -1
  else if b.input.name == "item_type" && a.input.name != "item_type" then 1
  else 0

/-- The source's `prioritizeItemTypeInput`. -/
def prioritizeItemTypeInput (clonedFields : FieldSchema) : FieldSchema :=
  match getTab clonedFields "link" with
  | some link => setTab clonedFields "link" (arraySort compareFields link)
  | none => clonedFields

/-- The first four calls of the effect, `addIDField()`, `handleCardFieldsDisplay()`,
`handleIsPinnedDisplay()` and `handleExcludeCardFieldDisplay()`, on the deep copy:
the value of `clonedFields` when `prioritizeItemTypeInput()` is called. -/
def filteredFields (fuel : Nat) (data : MenuItem) (modifiedData : MenuData)
    (fields : FieldSchema) : Except JsError FieldSchema := do
  let clonedFields := jsonClone fields
  let clonedFields := addIDField clonedFields
  let clonedFields ← handleCardFieldsDisplay fuel data modifiedData clonedFields
  let clonedFields ← handleIsPinnedDisplay fuel data modifiedData clonedFields
  let clonedFields ← handleExcludeCardFieldDisplay fuel data modifiedData clonedFields
  return clonedFields

/-- The body of the effect up to `setScopedFields(clonedFields)`: the value handed to
`setScopedFields`, or the error that leaves the effect. -/
def scopedFieldsEffect (fuel : Nat) (data : MenuItem) (modifiedData : MenuData)
    (fields : FieldSchema) : Except JsError FieldSchema := do
  let clonedFields ← filteredFields fuel data modifiedData fields
  let clonedFields := prioritizeItemTypeInput clonedFields
  return clonedFields

/-! ## The component `EditMenuItem` -/

/-- The call `array.findIndex(pred)` from position `i` on: the index of the first match,
`-1` when there is none. -/
def findIndexFrom {α : Type} (pred : α → Bool) : List α → Nat → Int
  | [], _ => -1
  | x :: xs, i => if pred x then (i : Int) else findIndexFrom pred xs (i + 1)

/-- The call `array.findIndex(pred)`. -/
def findIndex {α : Type} (pred : α → Bool) (array : List α) : Int :=
  findIndexFrom pred array 0

/-- The error object of one item: field name to message. -/
abbrev ErrorEntry := List (String × String)

/-- The `errors` of the form state: `errors.items`, when defined, holds at each index
the error object of the item or nothing. -/
structure MenuErrors where
  items : Option (List (Option ErrorEntry))
  deriving DecidableEq, Repr

/-- Indexing `array[i]` with a number: `undefined` outside the array. -/
def indexAt {α : Type} (array : List (Option α)) (i : Int) : Option α :=
  if i < 0 then none else (array.get? i.toNat).join

/-- The value of `errors?.items && errors.items[ itemIndex ]` when it is an error
object, `none` when it is falsy. -/
def itemErrorEntry (errors : Option MenuErrors) (itemIndex : Int) : Option ErrorEntry :=
  match errors with
  | none => none
  | some errors =>
    match errors.items with
    | none => none
    | some items => indexAt items itemIndex

/-- The constant `hasItemError`. -/
def hasItemError (errors : Option MenuErrors) (itemIndex : Int) : Bool :=
  (itemErrorEntry errors itemIndex).isSome

/-- The source's `hasTabError(key)`. Calling `map` on an `undefined` `fields[ key ]`
throws. -/
def hasTabError (fields : FieldSchema) (errors : Option MenuErrors) (itemIndex : Int)
    (key : String) : Except JsError Bool :=
  match itemErrorEntry errors itemIndex with
  | none => .ok false
  | some entry =>
    let errorFieldKeys := entry.map Prod.fst
    match getTab fields key with
    | none => .error .typeError
    | some tab =>
      let tabFieldKeys := tab.map (fun field => field.input.name)
      let hasError := errorFieldKeys.any (fun name => tabFieldKeys.contains name)
      .ok hasError

/-- Truthiness of a number that is not `NaN`. -/
def numberTruthy (n : Int) : Bool := n != 0

/-- What one render of `EditMenuItem` gives: `null`, or the tabbed form, of which the
model keeps the tabs (key and `hasError` of each `Tab`, or the error thrown while
building them) and the outcome of the effect that React runs after the render. -/
inductive Rendered where
  | null
  | form (tabs : Except JsError (List (String × Bool)))
      (effect : Except JsError FieldSchema)
  deriving Repr

/-- The component `EditMenuItem({ data, fields })`, given what `useMenuData()` returns
and the current value of the state `scopedFields` (`fields` at the first render). -/
def EditMenuItem (fuel : Nat) (data : MenuItem) (fields : FieldSchema)
    (errors : Option MenuErrors) (modifiedData : MenuData) (scopedFields : FieldSchema) :
    Rendered :=
  let itemIndex := findIndex (fun item => item.id == data.id) modifiedData.items
  if !numberTruthy itemIndex && itemIndex != 0 then
    .null
  else
    .form
      ((tabKeys scopedFields).mapM (fun key =>
        (hasTabError fields errors itemIndex key).map (fun hasError => (key, hasError))))
      (scopedFieldsEffect fuel data modifiedData fields)

/-! ## The scoping effect on a store

The effect of `EditMenuItem` once more, with the mutable values it works on made
explicit: schema objects and the arrays they hold live in a store and are referred to by
address, so that a write through one reference is seen through every other reference to
the same object. Field descriptors stay values: no statement of the effect writes to one.
-/

/-- A store: the arrays of field descriptors and the schema objects (ordered key to
array address) allocated so far. An address is a position; allocation appends. -/
structure Heap where
  arrays : List (List FieldDescriptor)
  objects : List (List (String × Nat))
  deriving DecidableEq, Repr

/-- The array at an address. -/
def readArray (h : Heap) (a : Nat) : List FieldDescriptor :=
  (h.arrays[a]?).getD []

/-- The object at an address. -/
def readObject (h : Heap) (ref : Nat) : List (String × Nat) :=
  (h.objects[ref]?).getD []

/-- The schema value seen through a reference to a schema object. -/
def schemaAt (h : Heap) (ref : Nat) : FieldSchema :=
  (readObject h ref).map (fun entry => (entry.1, readArray h entry.2))

/-- Whether `ref` refers to an allocated schema object whose keys are distinct, as the
keys of an object are, and whose tabs are allocated arrays. -/
def isSchemaRef (h : Heap) (ref : Nat) : Bool :=
  decide (ref < h.objects.length) &&
    (readObject h ref).all (fun entry => decide (entry.2 < h.arrays.length)) &&
    decide ((readObject h ref).map Prod.fst).Nodup

/-- Allocation of a new array. -/
def allocArray (h : Heap) (array : List FieldDescriptor) : Heap × Nat :=
  (⟨h.arrays ++ [array], h.objects⟩, h.arrays.length)

/-- In-place update of the array at an address. -/
def writeArray (h : Heap) (a : Nat) (array : List FieldDescriptor) : Heap :=
  ⟨h.arrays.set a array, h.objects⟩

/-- In-place update of the object at an address. -/
def writeObject (h : Heap) (ref : Nat) (object : List (String × Nat)) : Heap :=
  ⟨h.arrays, h.objects.set ref object⟩

/-- Property read `object[key]` on a schema object: the address of the array. -/
def getProp (object : List (String × Nat)) (key : String) : Option Nat :=
  (object.find? (fun entry => entry.1 == key)).map Prod.snd

/-- Property write `object[key] = a` on a schema object. -/
def setProp (object : List (String × Nat)) (key : String) (a : Nat) : List (String × Nat) :=
  if object.any (fun entry => entry.1 == key) then
    object.map (fun entry => if entry.1 == key then (key, a) else entry)
  else
    object ++ [(key, a)]

/-- The statement `delete object[key]` on a schema object. -/
def deleteProp (object : List (String × Nat)) (key : String) : List (String × Nat) :=
  object.filter (fun entry => entry.1 != key)

/-- The entries of a parsed copy of a schema value whose arrays are allocated from
address `a` on, one per tab. -/
def cloneEntries (a : Nat) : FieldSchema → List (String × Nat)
  | [] => []
  | (key, _) :: rest => (key, a) :: cloneEntries (a + 1) rest

/-- The deep copy `JSON.parse(JSON.stringify(fields))` of the schema object at `fields`:
a new array for the text of every tab, then a new object holding them. -/
def jsonCloneH (h : Heap) (fields : Nat) : Heap × Nat :=
  let value := schemaAt h fields
  (⟨h.arrays ++ value.map Prod.snd,
    h.objects ++ [cloneEntries h.arrays.length value]⟩, h.objects.length)

/-- The source's `addIDField` on the store: `unshift` updates the array in place. -/
def addIDFieldH (h : Heap) (clonedFields : Nat) : Heap :=
  match getProp (readObject h clonedFields) "link" with
  | some a => writeArray h a (IDField :: readArray h a)
  | none => h

/-- The source's `handleCardFieldsDisplay` on the store: `delete` updates the object in
place. -/
def handleCardFieldsDisplayH (fuel : Nat) (data : MenuItem) (modifiedData : MenuData)
    (h : Heap) (clonedFields : Nat) : Except JsError Heap :=
  let id := data.id
  let items := modifiedData.items
  match (items.filter (fun item => item.id == id)).head? with
  | none => .error .typeError
  | some itemById =>
    let item_type := itemById.item_type
    match getItemNestingLevel fuel items itemById 1 with
    | .error e => .error e
    | .ok nestingLevel =>
      if item_type != some "card" || nestingLevel == 4 then
        .ok (writeObject h clonedFields (deleteProp (readObject h clonedFields) "card"))
      else
        .ok h

/-- The assignment `clonedFields.link = clonedFields.link.filter(keep)`: `filter` gives a
new array, which the object then holds. -/
def assignFilteredLink (keep : FieldDescriptor → Bool) (h : Heap) (clonedFields : Nat) :
    Heap :=
  match getProp (readObject h clonedFields) "link" with
  | some a =>
    let (h, filtered) := allocArray h ((readArray h a).filter keep)
    writeObject h clonedFields (setProp (readObject h clonedFields) "link" filtered)
  | none => h

/-- The source's `handleExcludeCardFieldDisplay` on the store. -/
def handleExcludeCardFieldDisplayH (fuel : Nat) (data : MenuItem) (modifiedData : MenuData)
    (h : Heap) (clonedFields : Nat) : Except JsError Heap :=
  let id := data.id
  let items := modifiedData.items
  match (items.filter (fun item => item.id == id)).head? with
  | none => .error .typeError
  | some itemById =>
    match getItemNestingLevel fuel items itemById 1 with
    | .error e => .error e
    | .ok nestingLevel =>
      if nestingLevel == 3 || nestingLevel == 4 then
        .ok (assignFilteredLink (fun link => link.input.name != "excluded_card_ids")
          h clonedFields)
      else
        .ok h

/-- The source's `handleIsPinnedDisplay` on the store. -/
def handleIsPinnedDisplayH (fuel : Nat) (data : MenuItem) (modifiedData : MenuData)
    (h : Heap) (clonedFields : Nat) : Except JsError Heap :=
  let id := data.id
  let items := modifiedData.items
  match (items.filter (fun item => item.id == id)).head? with
  | none => .error .typeError
  | some itemById =>
    let item_type := itemById.item_type
    match getItemNestingLevel fuel items itemById 1 with
    | .error e => .error e
    | .ok nestingLevel =>
      if item_type == some "card" || nestingLevel == 1 || nestingLevel == 2 then
        .ok (assignFilteredLink (fun link => link.input.name != "is_pinned") h clonedFields)
      else
        .ok h

/-- The source's `prioritizeItemTypeInput` on the store: `sort` orders the array in
place and returns it, and the object is assigned the same array. -/
def prioritizeItemTypeInputH (h : Heap) (clonedFields : Nat) : Heap :=
  match getProp (readObject h clonedFields) "link" with
  | some a =>
    let h := writeArray h a (arraySort compareFields (readArray h a))
    writeObject h clonedFields (setProp (readObject h clonedFields) "link" a)
  | none => h

/-- The body of the effect on the store, for the prop `fields` given by reference: the
store it leaves, and the reference handed to `setScopedFields` or the error thrown. -/
def scopedFieldsEffectH (fuel : Nat) (data : MenuItem) (modifiedData : MenuData)
    (h : Heap) (fields : Nat) : Heap × Except JsError Nat :=
  let (h, clonedFields) := jsonCloneH h fields
  let h := addIDFieldH h clonedFields
  match handleCardFieldsDisplayH fuel data modifiedData h clonedFields with
  | .error e => (h, .error e)
  | .ok h =>
    match handleIsPinnedDisplayH fuel data modifiedData h clonedFields with
    | .error e => (h, .error e)
    | .ok h =>
      match handleExcludeCardFieldDisplayH fuel data modifiedData h clonedFields with
      | .error e => (h, .error e)
      | .ok h => (prioritizeItemTypeInputH h clonedFields, .ok clonedFields)

/-! ## The component `TreeMenuItem` -/

/-- The boolean props of `TreeMenuItem` (`PropTypes.bool`, `false` by default). -/
structure TreeMenuItemProps where
  hasErrors : Bool
  isActive : Bool
  isFirst : Bool
  isLast : Bool
  isMaxDepth : Bool
  deriving DecidableEq, Repr

/-- The icons of the actions. -/
inductive Icon where
  | Plus
  | ArrowDown
  | ArrowUp
  | Trash
  | ChevronRight
  | ChevronDown
  deriving DecidableEq, Repr

/-- The `onClick` of an action: one of the callback props, which the tree container
supplies, or the closure `() => setIsOpen(value)` on the local state. -/
inductive ClickHandler where
  | onAddSubmenu
  | onMoveDown
  | onMoveUp
  | onDelete
  | setIsOpen (value : Bool)
  deriving DecidableEq, Repr

/-- One entry `{ hidden, icon, label, onClick }` of the array `actions`. -/
structure Action where
  hidden : Bool
  icon : Icon
  label : String
  onClick : ClickHandler
  deriving DecidableEq, Repr

/-- The array `actions` built at each render, given the translation helpers `getTrad`
and `formatMessage`, the props and the local state `isOpen`. -/
def actions (getTrad : String → String) (formatMessage : IntlMessage → String)
    (props : TreeMenuItemProps) (isOpen : Bool) : List Action :=
  [ ⟨props.isMaxDepth, .Plus,
      formatMessage ⟨"Add submenu", getTrad "ui.add.menu"⟩, .onAddSubmenu⟩,
    ⟨props.isLast, .ArrowDown,
      formatMessage ⟨"Move item down", getTrad "ui.move.menuItem.down"⟩, .onMoveDown⟩,
    ⟨props.isFirst, .ArrowUp,
      formatMessage ⟨"Move item up", getTrad "ui.move.menuItem.up"⟩, .onMoveUp⟩,
    ⟨false, .Trash,
      formatMessage ⟨"Delete menu item", getTrad "ui.delete.menuItem"⟩, .onDelete⟩,
    ⟨isOpen, .ChevronRight, "Show children", .setIsOpen true⟩,
    ⟨!isOpen, .ChevronDown, "Hide children", .setIsOpen false⟩ ]

/-- What one render of `TreeMenuItem` gives, as far as the props and the state decide
it: the colours of the box, the toolbar (`isActive && <Toolbar actions />`) and whether
the children are rendered (`isOpen && children`). -/
structure TreeRendered where
  background : String
  borderColor : String
  toolbar : Option (List Action)
  childrenRendered : Bool
  deriving DecidableEq, Repr

/-- The component `TreeMenuItem`, for the current value of its state `isOpen`. -/
def TreeMenuItem (getTrad : String → String) (formatMessage : IntlMessage → String)
    (props : TreeMenuItemProps) (isOpen : Bool) : TreeRendered :=
  let bgColor := if props.hasErrors then some "danger100" else none
  let borderColor := if props.hasErrors then some "danger600" else none
  ⟨bgColor.getD "neutral0", borderColor.getD "transparent",
    if props.isActive then some (actions getTrad formatMessage props isOpen) else none,
    isOpen⟩

/-- A mounted `TreeMenuItem`: its current props and its local state. -/
structure TreeNode where
  props : TreeMenuItemProps
  isOpen : Bool
  deriving DecidableEq, Repr

/-- Mounting: `useState(true)`. -/
def mountTreeMenuItem (props : TreeMenuItemProps) : TreeNode := ⟨props, true⟩

/-- What can happen to a mounted node: the `onClick` of the action at some index of the
current `actions` is called, or the container renders the node with new props. -/
inductive TreeEvent where
  | click (index : Nat)
  | newProps (props : TreeMenuItemProps)
  deriving DecidableEq, Repr

/-- The local state after an `onClick` is called: `setIsOpen(value)` sets it, a callback
prop has no access to it. -/
def applyClick (isOpen : Bool) : ClickHandler → Bool
  | .setIsOpen value => value
  | _ => isOpen

/-- One event on a mounted node. -/
def stepTree (getTrad : String → String) (formatMessage : IntlMessage → String)
    (node : TreeNode) : TreeEvent → TreeNode
  | .newProps props => ⟨props, node.isOpen⟩
  | .click index =>
    match (actions getTrad formatMessage node.props node.isOpen).get? index with
    | some action => ⟨node.props, applyClick node.isOpen action.onClick⟩
    | none => node

/-- The node after a sequence of events, from its mounting with `props`. -/
def runTree (getTrad : String → String) (formatMessage : IntlMessage → String)
    (props : TreeMenuItemProps) (events : List TreeEvent) : TreeNode :=
  events.foldl (stepTree getTrad formatMessage) (mountTreeMenuItem props)

/-- Whether an event is a click. -/
def TreeEvent.isClick : TreeEvent → Bool
  | .click _ => true
  | .newProps _ => false

/-! ## Auxiliary definitions for the proofs -/

/-- The fields of a `link` tab that the pinned-field filter keeps for an item of the
given `item_type` and nesting level. -/
def pinnedKept (item_type : Option String) (nestingLevel : Nat)
    (link : List FieldDescriptor) : List FieldDescriptor :=
  if item_type == some "card" || nestingLevel == 1 || nestingLevel == 2 then
    link.filter (fun link => link.input.name != "is_pinned")
  else link

/-- The fields of the base `link` tab that the two field filters keep for an item of
the given `item_type` and nesting level. -/
def keptLink (item_type : Option String) (nestingLevel : Nat)
    (link : List FieldDescriptor) : List FieldDescriptor :=
  if nestingLevel == 3 || nestingLevel == 4 then
    (pinnedKept item_type nestingLevel link).filter
      (fun link => link.input.name != "excluded_card_ids")
  else pinnedKept item_type nestingLevel link

/-- The update `clonedFields.link = f(clonedFields.link)` that every call of the effect
but the card-tab one performs, guarded by `if (clonedFields.link)`. -/
def updateLink (f : List FieldDescriptor → List FieldDescriptor) (clonedFields : FieldSchema) :
    FieldSchema :=
  match getTab clonedFields "link" with
  | some link => setTab clonedFields "link" (f link)
  | none => clonedFields

/-- What `handleCardFieldsDisplay` does for an item of the given `item_type` and level. -/
def cardStep (item_type : Option String) (nestingLevel : Nat) (clonedFields : FieldSchema) :
    FieldSchema :=
  if item_type != some "card" || nestingLevel == 4 then deleteTab clonedFields "card"
  else clonedFields

/-- What `handleIsPinnedDisplay` does for an item of the given `item_type` and level. -/
def pinStep (item_type : Option String) (nestingLevel : Nat) (clonedFields : FieldSchema) :
    FieldSchema :=
  if item_type == some "card" || nestingLevel == 1 || nestingLevel == 2 then
    updateLink (fun link => link.filter (fun link => link.input.name != "is_pinned"))
      clonedFields
  else clonedFields

/-- What `handleExcludeCardFieldDisplay` does for an item of the given level. -/
def exclStep (nestingLevel : Nat) (clonedFields : FieldSchema) : FieldSchema :=
  if nestingLevel == 3 || nestingLevel == 4 then
    updateLink (fun link => link.filter (fun link => link.input.name != "excluded_card_ids"))
      clonedFields
  else clonedFields

/-- The invariant of the effect on the store, between the store `h₀` it started from and
the current store `h`, for the copy at `clonedFields`: what `h₀` held is still there,
the copy is the first object allocated since, its arrays were all allocated since, and
two of its entries have the same key exactly when they hold the same array. -/
def CloneInv (h₀ h : Heap) (clonedFields : Nat) : Prop :=
  h₀.arrays <+: h.arrays ∧ h₀.objects <+: h.objects ∧
  clonedFields = h₀.objects.length ∧ clonedFields < h.objects.length ∧
  (∀ e ∈ readObject h clonedFields, h₀.arrays.length ≤ e.2 ∧ e.2 < h.arrays.length) ∧
  (∀ e₁ ∈ readObject h clonedFields, ∀ e₂ ∈ readObject h clonedFields,
    (e₁.1 = e₂.1 ↔ e₁.2 = e₂.2))

/-! ## Example data -/

/-- The root item `{ id: 'A', parent: null }`. -/
def itemA : MenuItem := ⟨.str "A", none, none, none⟩

/-- The item `{ id: 'B', parent: { id: 'A' } }`. -/
def itemB : MenuItem := ⟨.str "B", none, none, some ⟨.str "A"⟩⟩

/-- The item `{ id: 'C', item_type: 'card', parent: { id: 'B' } }`. -/
def itemC : MenuItem := ⟨.str "C", none, some "card", some ⟨.str "B"⟩⟩

/-- The item collection `[A, B, C]`. -/
def chainItems : List MenuItem := [itemA, itemB, itemC]

/-- The item `{ id: 'A', item_type: 'link', parent: null }`. -/
def linkItemA : MenuItem := ⟨.str "A", none, some "link", none⟩

/-- A selected item `{ id: 'X' }` that the collections of the examples do not contain. -/
def missingItem : MenuItem := ⟨.str "X", none, none, none⟩

/-- The errors `{ items: [ <empty>, { title: 'required' } ] }`. -/
def exampleErrors : Option MenuErrors := some ⟨some [none, some [("title", "required")]]⟩

/-- A text field descriptor with the given name. -/
def textField (name : String) : FieldDescriptor :=
  ⟨⟨name, "text", false, ⟨name, name⟩, ⟨name, name⟩⟩, ⟨6, 12⟩⟩

/-- A base schema with a `link` tab, a `card` tab and an `advanced` tab. -/
def exampleFields : FieldSchema :=
  [("link", [textField "title", textField "is_pinned", textField "url",
      textField "item_type", textField "excluded_card_ids"]),
   ("card", [textField "card_image"]),
   ("advanced", [textField "target"])]

/-- A base schema whose `link` tab has a field named `id` of its own. -/
def fieldsWithId : FieldSchema :=
  [("link", [textField "id", textField "item_type"])]

/-- A store that holds the example schema: its three arrays and, at address 0, the
schema object. -/
def exampleHeap : Heap :=
  ⟨[[textField "title", textField "is_pinned", textField "url", textField "item_type",
      textField "excluded_card_ids"],
    [textField "card_image"],
    [textField "target"]],
   [[("link", 0), ("card", 1), ("advanced", 2)]]⟩

/-! ## Lemmas on the nesting level -/

theorem head?_filter_eq_find? {α : Type} (p : α → Bool) (l : List α) :
    (l.filter p).head? = l.find? p := by
  induction l with
  | nil => rfl
  | cons a l ih =>
    by_cases h : p a
    · simp [List.filter_cons, List.find?_cons, h]
    · simp [List.filter_cons, List.find?_cons, h, ih]

/-- Along a parent chain the level grows by one per ancestor, from any base level. -/
theorem getItemNestingLevel_of_chain (items : List MenuItem) :
    ∀ (ancestors : List MenuItem) (item : MenuItem) (fuel level : Nat),
      isParentChain items item ancestors = true → ancestors.length + 1 ≤ fuel →
      getItemNestingLevel fuel items item level = .ok (level + ancestors.length) := by
  intro ancestors
  induction ancestors with
  | nil =>
    intro item fuel level h hf
    obtain ⟨n, rfl⟩ : ∃ n, fuel = n + 1 := ⟨fuel - 1, by omega⟩
    have hp : item.parent = none := by simpa [isParentChain] using h
    simp [getItemNestingLevel, hp]
  | cons p rest ih =>
    intro item fuel level h hf
    obtain ⟨n, rfl⟩ : ∃ n, fuel = n + 1 := ⟨fuel - 1, by simp at hf; omega⟩
    cases hp : item.parent with
    | none => simp [isParentChain, hp] at h
    | some ref =>
      simp only [isParentChain, hp, Bool.and_eq_true, beq_iff_eq] at h
      have hrec := ih p n (level + 1) h.2 (by simp at hf; omega)
      simp only [getItemNestingLevel, hp, head?_filter_eq_find?, h.1, hrec]
      simp only [List.length_cons]
      congr 1
      omega

/-! ## Lemmas on the schema operations -/

theorem getTab_cons (e : String × List FieldDescriptor) (rest : FieldSchema) (key : String) :
    getTab (e :: rest) key = if e.1 = key then some e.2 else getTab rest key := by
  by_cases h : e.1 = key <;> simp [getTab, List.find?_cons, h]

theorem getTab_map_replace_self (key : String) (value : List FieldDescriptor) :
    ∀ fields : FieldSchema, fields.any (fun entry => entry.1 == key) = true →
      getTab (fields.map (fun entry => if entry.1 == key then (key, value) else entry)) key
        = some value
  | [], h => by simp at h
  | e :: rest, h => by
    by_cases he : e.1 = key
    · simp [getTab_cons, he]
    · have hrest : rest.any (fun entry => entry.1 == key) = true := by simpa [he] using h
      simpa [getTab_cons, he] using getTab_map_replace_self key value rest hrest

theorem getTab_map_replace_ne (key other : String) (value : List FieldDescriptor)
    (hne : other ≠ key) :
    ∀ fields : FieldSchema,
      getTab (fields.map (fun entry => if entry.1 == key then (key, value) else entry)) other
        = getTab fields other
  | [] => rfl
  | e :: rest => by
    have ih := getTab_map_replace_ne key other value hne rest
    have h1 : ¬ key = other := fun h => hne h.symm
    by_cases he : e.1 = key
    · have h2 : ¬ e.1 = other := he ▸ h1
      simpa [getTab_cons, he, h1, h2] using ih
    · by_cases ho : e.1 = other
      · simp [getTab_cons, ho, hne]
      · simpa [getTab_cons, he, ho] using ih

theorem getTab_append_single (fields : FieldSchema) (key other : String)
    (value : List FieldDescriptor) :
    getTab (fields ++ [(key, value)]) other
      = (getTab fields other).or (if key = other then some value else none) := by
  induction fields with
  | nil => by_cases h : key = other <;> simp [getTab, h]
  | cons e rest ih =>
    by_cases he : e.1 = other
    · simp [getTab_cons, he]
    · simpa [getTab_cons, he] using ih

theorem getTab_eq_none_of_not_any (fields : FieldSchema) (key : String)
    (h : ¬ fields.any (fun entry => entry.1 == key) = true) : getTab fields key = none := by
  induction fields with
  | nil => rfl
  | cons e rest ih =>
    have he : ¬ e.1 = key := fun he => h (by simp [he])
    have hrest : ¬ rest.any (fun entry => entry.1 == key) = true := fun hr => h (by simp [hr])
    simpa [getTab_cons, he] using ih hrest

theorem getTab_setTab_self (fields : FieldSchema) (key : String) (value : List FieldDescriptor) :
    getTab (setTab fields key value) key = some value := by
  unfold setTab
  split
  · rename_i h
    exact getTab_map_replace_self key value fields h
  · rename_i h
    simp [getTab_append_single, getTab_eq_none_of_not_any fields key h]

theorem getTab_setTab_ne (fields : FieldSchema) (key other : String)
    (value : List FieldDescriptor) (hne : other ≠ key) :
    getTab (setTab fields key value) other = getTab fields other := by
  unfold setTab
  split
  · exact getTab_map_replace_ne key other value hne fields
  · have h1 : ¬ key = other := fun h => hne h.symm
    simp [getTab_append_single, h1]

theorem getTab_deleteTab_self (fields : FieldSchema) (key : String) :
    getTab (deleteTab fields key) key = none := by
  simp only [getTab, deleteTab, Option.map_eq_none', List.find?_eq_none, List.mem_filter]
  intro x hx
  simpa using hx.2

theorem getTab_deleteTab_ne (fields : FieldSchema) (key other : String) (hne : other ≠ key) :
    getTab (deleteTab fields key) other = getTab fields other := by
  induction fields with
  | nil => rfl
  | cons e rest ih =>
    by_cases he : e.1 = key
    · have h2 : ¬ e.1 = other := fun h => hne (h.symm.trans he)
      have hd : deleteTab (e :: rest) key = deleteTab rest key := by
        simp [deleteTab, he]
      simpa [hd, getTab_cons, h2] using ih
    · have hd : deleteTab (e :: rest) key = e :: deleteTab rest key := by
        simp [deleteTab, he]
      by_cases ho : e.1 = other
      · simp [hd, getTab_cons, ho]
      · simpa [hd, getTab_cons, ho] using ih

/-! ## Lemmas on the sort -/

theorem sortInsert_perm {α : Type} (compareFn : α → α → Int) (x : α) :
    ∀ l : List α, (sortInsert compareFn x l).Perm (x :: l)
  | [] => List.Perm.refl _
  | y :: ys => by
    unfold sortInsert
    split
    · exact List.Perm.refl _
    · exact ((sortInsert_perm compareFn x ys).cons y).trans (List.Perm.swap x y ys)

theorem foldl_sortInsert_perm {α : Type} (compareFn : α → α → Int) :
    ∀ (l sorted : List α),
      (l.foldl (fun sorted x => sortInsert compareFn x sorted) sorted).Perm (sorted ++ l)
  | [], sorted => by simp
  | x :: xs, sorted => by
    have h1 := foldl_sortInsert_perm compareFn xs (sortInsert compareFn x sorted)
    have h2 : (sortInsert compareFn x sorted ++ xs).Perm (sorted ++ x :: xs) :=
      ((sortInsert_perm compareFn x sorted).append_right xs).trans
        (by simpa using (@List.perm_middle _ x sorted xs).symm)
    simpa using h1.trans h2

theorem arraySort_perm {α : Type} (compareFn : α → α → Int) (l : List α) :
    (arraySort compareFn l).Perm l := by
  simpa [arraySort] using foldl_sortInsert_perm compareFn l []

/-- A field named neither `id` nor `item_type` goes behind every field that is not
named `id`. -/
theorem sortInsert_other (x : FieldDescriptor) (hid : x.input.name ≠ "id")
    (hit : x.input.name ≠ "item_type") :
    ∀ l : List FieldDescriptor, sortInsert compareFields x l = l ++ [x]
  | [] => rfl
  | y :: ys => by
    have hcmp : ¬ compareFields x y < 0 := by
      unfold compareFields
      by_cases hy : y.input.name = "id"
      · simp [hid, hy]
      · by_cases hy2 : y.input.name = "item_type" <;> simp [hid, hit, hy, hy2]
    simp [sortInsert, hcmp, sortInsert_other x hid hit ys]

/-- A field named `item_type` goes behind the `item_type` fields and before the first
field named neither `id` nor `item_type`. -/
theorem sortInsert_itemType (x : FieldDescriptor) (hx : x.input.name = "item_type")
    (others : List FieldDescriptor)
    (hothers : ∀ f ∈ others, f.input.name ≠ "id" ∧ f.input.name ≠ "item_type") :
    ∀ types : List FieldDescriptor, (∀ f ∈ types, f.input.name = "item_type") →
      sortInsert compareFields x (types ++ others) = types ++ x :: others
  | [], _ => by
    cases others with
    | nil => rfl
    | cons y ys =>
      have hy := hothers y (List.mem_cons_self y ys)
      have hcmp : compareFields x y < 0 := by
        simp [compareFields, hx, hy.1, hy.2]
      simp [sortInsert, hcmp]
  | y :: ys, htypes => by
    have hy : y.input.name = "item_type" := htypes y (List.mem_cons_self y ys)
    have hcmp : ¬ compareFields x y < 0 := by
      simp [compareFields, hx, hy]
    have ih := sortInsert_itemType x hx others hothers ys
      (fun f hf => htypes f (List.mem_cons_of_mem y hf))
    simp [sortInsert, hcmp, ih]

/-- Behind a field named `id`, a field not named `id` is inserted into the rest. -/
theorem sortInsert_after_id (x y : FieldDescriptor) (hx : x.input.name ≠ "id")
    (hy : y.input.name = "id") (l : List FieldDescriptor) :
    sortInsert compareFields x (y :: l) = y :: sortInsert compareFields x l := by
  have hcmp : ¬ compareFields x y < 0 := by simp [compareFields, hx, hy]
  simp [sortInsert, hcmp]

/-- Inserting, one after the other, fields not named `id` behind a leading `id` field,
`item_type` fields and other fields. -/
theorem foldl_sortInsert_partition (y : FieldDescriptor) (hy : y.input.name = "id") :
    ∀ (l types others : List FieldDescriptor),
      (∀ f ∈ l, f.input.name ≠ "id") →
      (∀ f ∈ types, f.input.name = "item_type") →
      (∀ f ∈ others, f.input.name ≠ "id" ∧ f.input.name ≠ "item_type") →
      l.foldl (fun sorted x => sortInsert compareFields x sorted) (y :: (types ++ others))
        = y :: ((types ++ l.filter (fun f => f.input.name == "item_type"))
            ++ (others ++ l.filter (fun f => f.input.name != "item_type")))
  | [], types, others, _, _, _ => by simp
  | x :: xs, types, others, hl, htypes, hothers => by
    have hxid : x.input.name ≠ "id" := hl x (List.mem_cons_self x xs)
    have hxs : ∀ f ∈ xs, f.input.name ≠ "id" := fun f hf => hl f (List.mem_cons_of_mem x hf)
    by_cases hx : x.input.name = "item_type"
    · have hstep : sortInsert compareFields x (y :: (types ++ others))
          = y :: ((types ++ [x]) ++ others) := by
        rw [sortInsert_after_id x y hxid hy,
          sortInsert_itemType x hx others hothers types htypes]
        simp
      have ih := foldl_sortInsert_partition y hy xs (types ++ [x]) others hxs
        (by
          intro f hf
          rcases List.mem_append.1 hf with h | h
          · exact htypes f h
          · simpa [List.mem_singleton.1 h] using hx)
        hothers
      simp only [List.foldl_cons, hstep, ih]
      simp [hx]
    · have hstep : sortInsert compareFields x (y :: (types ++ others))
          = y :: (types ++ (others ++ [x])) := by
        rw [sortInsert_after_id x y hxid hy, sortInsert_other x hxid hx]
        simp
      have ih := foldl_sortInsert_partition y hy xs types (others ++ [x]) hxs htypes
        (by
          intro f hf
          rcases List.mem_append.1 hf with h | h
          · exact hothers f h
          · rw [List.mem_singleton.1 h]; exact ⟨hxid, hx⟩)
      simp only [List.foldl_cons, hstep, ih]
      simp [hx]

/-- The sort of a list that starts with its only `id` field: that field, then the
`item_type` fields, then the other fields, each group in its original order. -/
theorem arraySort_id_cons (y : FieldDescriptor) (hy : y.input.name = "id")
    (l : List FieldDescriptor) (hl : ∀ f ∈ l, f.input.name ≠ "id") :
    arraySort compareFields (y :: l)
      = y :: (l.filter (fun f => f.input.name == "item_type")
          ++ l.filter (fun f => f.input.name != "item_type")) := by
  have h := foldl_sortInsert_partition y hy l [] [] hl (by simp) (by simp)
  simpa [arraySort, sortInsert] using h

/-! ## Lemmas on the effect -/

theorem keptLink_id_cons (item_type : Option String) (level : Nat)
    (link : List FieldDescriptor) :
    keptLink item_type level (IDField :: link) = IDField :: keptLink item_type level link := by
  have h1 : (IDField.input.name != "is_pinned") = true := by decide
  have h2 : (IDField.input.name != "excluded_card_ids") = true := by decide
  have hp : pinnedKept item_type level (IDField :: link)
      = IDField :: pinnedKept item_type level link := by
    unfold pinnedKept
    split
    · simp only [List.filter_cons, h1, if_true]
    · rfl
  unfold keptLink
  rw [hp]
  split
  · simp only [List.filter_cons, h2, if_true]
  · rfl

theorem handleCardFieldsDisplay_ok (fuel : Nat) (data : MenuItem) (modifiedData : MenuData)
    (clonedFields : FieldSchema) (itemById : MenuItem) (level : Nat)
    (hfind : modifiedData.items.find? (fun x => x.id == data.id) = some itemById)
    (hlevel : getItemNestingLevel fuel modifiedData.items itemById 1 = .ok level) :
    handleCardFieldsDisplay fuel data modifiedData clonedFields
      = .ok (if itemById.item_type != some "card" || level == 4 then
          deleteTab clonedFields "card" else clonedFields) := by
  simp only [handleCardFieldsDisplay, head?_filter_eq_find?, hfind, hlevel]
  split <;> rfl

theorem handleIsPinnedDisplay_ok (fuel : Nat) (data : MenuItem) (modifiedData : MenuData)
    (clonedFields : FieldSchema) (itemById : MenuItem) (level : Nat)
    (hfind : modifiedData.items.find? (fun x => x.id == data.id) = some itemById)
    (hlevel : getItemNestingLevel fuel modifiedData.items itemById 1 = .ok level) :
    handleIsPinnedDisplay fuel data modifiedData clonedFields
      = .ok (if itemById.item_type == some "card" || level == 1 || level == 2 then
          (match getTab clonedFields "link" with
            | some link =>
              setTab clonedFields "link"
                (link.filter (fun link => link.input.name != "is_pinned"))
            | none => clonedFields)
          else clonedFields) := by
  simp only [handleIsPinnedDisplay, head?_filter_eq_find?, hfind, hlevel]
  split
  · split <;> rfl
  · rfl

theorem handleExcludeCardFieldDisplay_ok (fuel : Nat) (data : MenuItem)
    (modifiedData : MenuData) (clonedFields : FieldSchema) (itemById : MenuItem) (level : Nat)
    (hfind : modifiedData.items.find? (fun x => x.id == data.id) = some itemById)
    (hlevel : getItemNestingLevel fuel modifiedData.items itemById 1 = .ok level) :
    handleExcludeCardFieldDisplay fuel data modifiedData clonedFields
      = .ok (if level == 3 || level == 4 then
          (match getTab clonedFields "link" with
            | some link =>
              setTab clonedFields "link"
                (link.filter (fun link => link.input.name != "excluded_card_ids"))
            | none => clonedFields)
          else clonedFields) := by
  simp only [handleExcludeCardFieldDisplay, head?_filter_eq_find?, hfind, hlevel]
  split
  · split <;> rfl
  · rfl

/-- What the four calls before the reorder leave in `clonedFields`, for a selected item
that the collection resolves to `itemById` at nesting level `level`. -/
theorem filteredFields_spec (fuel : Nat) (data : MenuItem) (modifiedData : MenuData)
    (fields : FieldSchema) (itemById : MenuItem) (level : Nat)
    (hfind : modifiedData.items.find? (fun x => x.id == data.id) = some itemById)
    (hlevel : getItemNestingLevel fuel modifiedData.items itemById 1 = .ok level) :
    ∃ filtered, filteredFields fuel data modifiedData fields = .ok filtered ∧
      getTab filtered "link"
        = (getTab fields "link").map
            (fun link => IDField :: keptLink itemById.item_type level link) ∧
      getTab filtered "card"
        = (if itemById.item_type != some "card" || level == 4 then none
           else getTab fields "card") ∧
      (∀ key, key ≠ "link" → key ≠ "card" → getTab filtered key = getTab fields key) := by
  have hlc : ("link" : String) ≠ "card" := by decide
  have hcl : ("card" : String) ≠ "link" := by decide
  -- the schema after each call
  let s1 := addIDField fields
  let s2 := if itemById.item_type != some "card" || level == 4 then deleteTab s1 "card" else s1
  let s3 := if itemById.item_type == some "card" || level == 1 || level == 2 then
      (match getTab s2 "link" with
        | some link => setTab s2 "link" (link.filter (fun link => link.input.name != "is_pinned"))
        | none => s2)
    else s2
  let s4 := if level == 3 || level == 4 then
      (match getTab s3 "link" with
        | some link =>
          setTab s3 "link" (link.filter (fun link => link.input.name != "excluded_card_ids"))
        | none => s3)
    else s3
  have hrun : filteredFields fuel data modifiedData fields = .ok s4 := by
    simp only [filteredFields, jsonClone, bind, Except.bind, pure, Except.pure,
      handleCardFieldsDisplay_ok fuel data modifiedData _ itemById level hfind hlevel,
      handleIsPinnedDisplay_ok fuel data modifiedData _ itemById level hfind hlevel,
      handleExcludeCardFieldDisplay_ok fuel data modifiedData _ itemById level hfind hlevel]
  -- the `link` tab after each call
  have l1 : getTab s1 "link" = (getTab fields "link").map (fun link => IDField :: link) := by
    simp only [s1, addIDField]
    cases h : getTab fields "link" with
    | none => simp [h]
    | some link => simp [getTab_setTab_self]
  have l2 : getTab s2 "link" = getTab s1 "link" := by
    simp only [s2]
    split
    · exact getTab_deleteTab_ne s1 "card" "link" hlc
    · rfl
  have l3 : getTab s3 "link" = (getTab s2 "link").map (fun link =>
      if itemById.item_type == some "card" || level == 1 || level == 2 then
        link.filter (fun link => link.input.name != "is_pinned") else link) := by
    simp only [s3]
    cases h : getTab s2 "link" with
    | none => split <;> simp [h]
    | some link => split <;> simp [h, getTab_setTab_self]
  have l4 : getTab s4 "link" = (getTab s3 "link").map (fun link =>
      if level == 3 || level == 4 then
        link.filter (fun link => link.input.name != "excluded_card_ids") else link) := by
    simp only [s4]
    cases h : getTab s3 "link" with
    | none => split <;> simp [h]
    | some link => split <;> simp [h, getTab_setTab_self]
  -- the other tabs after each call
  have o1 : ∀ key, key ≠ "link" → getTab s1 key = getTab fields key := by
    intro key hk
    simp only [s1, addIDField]
    split
    · exact getTab_setTab_ne _ _ _ _ hk
    · rfl
  have o3 : ∀ key, key ≠ "link" → getTab s3 key = getTab s2 key := by
    intro key hk
    simp only [s3]
    split
    · split
      · exact getTab_setTab_ne _ _ _ _ hk
      · rfl
    · rfl
  have o4 : ∀ key, key ≠ "link" → getTab s4 key = getTab s3 key := by
    intro key hk
    simp only [s4]
    split
    · split
      · exact getTab_setTab_ne _ _ _ _ hk
      · rfl
    · rfl
  refine ⟨s4, hrun, ?_, ?_, ?_⟩
  · rw [l4, l3, l2, l1]
    cases getTab fields "link" with
    | none => rfl
    | some link =>
      simp only [Option.map_some']
      rw [← keptLink_id_cons]
      simp only [keptLink, pinnedKept]
  · rw [o4 _ hcl, o3 _ hcl]
    simp only [s2]
    split
    · exact getTab_deleteTab_self s1 "card"
    · exact o1 _ hcl
  · intro key hk1 hk2
    rw [o4 _ hk1, o3 _ hk1]
    simp only [s2]
    split
    · rw [getTab_deleteTab_ne _ _ _ hk2, o1 _ hk1]
    · exact o1 _ hk1

/-- What the effect hands to `setScopedFields`, for a selected item that the collection
resolves to `itemById` at nesting level `level`. -/
theorem scopedFieldsEffect_spec (fuel : Nat) (data : MenuItem) (modifiedData : MenuData)
    (fields : FieldSchema) (itemById : MenuItem) (level : Nat)
    (hfind : modifiedData.items.find? (fun x => x.id == data.id) = some itemById)
    (hlevel : getItemNestingLevel fuel modifiedData.items itemById 1 = .ok level) :
    ∃ filtered result, filteredFields fuel data modifiedData fields = .ok filtered ∧
      scopedFieldsEffect fuel data modifiedData fields = .ok result ∧
      getTab filtered "link"
        = (getTab fields "link").map
            (fun link => IDField :: keptLink itemById.item_type level link) ∧
      getTab result "link"
        = (getTab fields "link").map
            (fun link => arraySort compareFields
              (IDField :: keptLink itemById.item_type level link)) ∧
      getTab result "card"
        = (if itemById.item_type != some "card" || level == 4 then none
           else getTab fields "card") ∧
      (∀ key, key ≠ "link" → key ≠ "card" → getTab result key = getTab fields key) := by
  obtain ⟨filtered, hrun, hlink, hcard, hother⟩ :=
    filteredFields_spec fuel data modifiedData fields itemById level hfind hlevel
  have hcl : ("card" : String) ≠ "link" := by decide
  have hp : ∀ key, key ≠ "link" →
      getTab (prioritizeItemTypeInput filtered) key = getTab filtered key := by
    intro key hk
    unfold prioritizeItemTypeInput
    split
    · exact getTab_setTab_ne _ _ _ _ hk
    · rfl
  refine ⟨filtered, prioritizeItemTypeInput filtered, hrun, ?_, hlink, ?_, ?_, ?_⟩
  · simp [scopedFieldsEffect, hrun, bind, Except.bind, pure, Except.pure]
  · unfold prioritizeItemTypeInput
    cases h : getTab fields "link" with
    | none =>
      rw [h] at hlink
      simp only [Option.map_none'] at hlink
      simp [hlink]
    | some link =>
      rw [h] at hlink
      simp only [Option.map_some'] at hlink
      simp [hlink, getTab_setTab_self]
  · rw [hp _ hcl, hcard]
  · intro key hk1 hk2
    rw [hp _ hk1, hother _ hk1 hk2]

theorem getItemNestingLevel_chain_one (items : List MenuItem) (ancestors : List MenuItem)
    (item : MenuItem) (fuel : Nat) (hchain : isParentChain items item ancestors = true)
    (hfuel : ancestors.length + 1 ≤ fuel) :
    getItemNestingLevel fuel items item 1 = .ok (ancestors.length + 1) := by
  rw [getItemNestingLevel_of_chain items ancestors item fuel 1 hchain hfuel, Nat.add_comm]

theorem mem_pinnedKept (item_type : Option String) (level : Nat)
    (link : List FieldDescriptor) (f : FieldDescriptor) :
    f ∈ pinnedKept item_type level link ↔
      f ∈ link ∧
      ((item_type = some "card" ∨ level = 1 ∨ level = 2) → f.input.name ≠ "is_pinned") := by
  have hpb : (item_type == some "card" || level == 1 || level == 2) = true ↔
      (item_type = some "card" ∨ level = 1 ∨ level = 2) := by
    simp [or_assoc]
  unfold pinnedKept
  split
  · rename_i h
    have hc := hpb.1 h
    simp only [List.mem_filter, bne_iff_ne, ne_eq]
    tauto
  · rename_i h
    have hc : ¬ (item_type = some "card" ∨ level = 1 ∨ level = 2) := fun c => h (hpb.2 c)
    tauto

/-- The fields kept by the two filters: those of the base tab but `is_pinned` when the
pinned filter applies and `excluded_card_ids` when the exclusion filter applies. -/
theorem mem_keptLink (item_type : Option String) (level : Nat) (link : List FieldDescriptor)
    (f : FieldDescriptor) :
    f ∈ keptLink item_type level link ↔
      f ∈ link ∧
      ((item_type = some "card" ∨ level = 1 ∨ level = 2) → f.input.name ≠ "is_pinned") ∧
      ((level = 3 ∨ level = 4) → f.input.name ≠ "excluded_card_ids") := by
  have heb : (level == 3 || level == 4) = true ↔ (level = 3 ∨ level = 4) := by simp
  unfold keptLink
  split
  · rename_i h
    have hc := heb.1 h
    simp only [List.mem_filter, bne_iff_ne, ne_eq, mem_pinnedKept]
    tauto
  · rename_i h
    have hc : ¬ (level = 3 ∨ level = 4) := fun c => h (heb.2 c)
    rw [mem_pinnedKept]
    tauto

theorem keptLink_sublist (item_type : Option String) (level : Nat)
    (link : List FieldDescriptor) : (keptLink item_type level link).Sublist link := by
  have hp : (pinnedKept item_type level link).Sublist link := by
    unfold pinnedKept
    split
    · exact List.filter_sublist _
    · exact List.Sublist.refl _
  unfold keptLink
  split
  · exact (List.filter_sublist _).trans hp
  · exact hp

/-- The scoped `link` tab holds the injected ID field and the kept fields. -/
theorem mem_scopedLink (item_type : Option String) (level : Nat) (link : List FieldDescriptor)
    (f : FieldDescriptor) :
    f ∈ arraySort compareFields (IDField :: keptLink item_type level link) ↔
      f = IDField ∨ f ∈ keptLink item_type level link := by
  rw [(arraySort_perm compareFields _).mem_iff, List.mem_cons]

/-- The scoped `link` tab when the base tab has no field named `id`: the injected ID
field, the kept `item_type` fields, then the other kept fields, in base order. -/
theorem scopedLink_eq (item_type : Option String) (level : Nat) (base : List FieldDescriptor)
    (hnoid : ∀ f ∈ base, f.input.name ≠ "id") :
    arraySort compareFields (IDField :: keptLink item_type level base)
      = IDField :: ((keptLink item_type level base).filter
            (fun f => f.input.name == "item_type")
          ++ (keptLink item_type level base).filter
            (fun f => f.input.name != "item_type")) :=
  arraySort_id_cons IDField rfl _
    (fun f hf => hnoid f ((keptLink_sublist item_type level base).subset hf))

/-! ## Lemmas on the tab keys -/

/-- The effect as a composition of its five steps, for a selected item that the
collection resolves to `itemById` at nesting level `level`. -/
theorem scopedFieldsEffect_eq (fuel : Nat) (data : MenuItem) (modifiedData : MenuData)
    (fields : FieldSchema) (itemById : MenuItem) (level : Nat)
    (hfind : modifiedData.items.find? (fun x => x.id == data.id) = some itemById)
    (hlevel : getItemNestingLevel fuel modifiedData.items itemById 1 = .ok level) :
    scopedFieldsEffect fuel data modifiedData fields
      = .ok (updateLink (arraySort compareFields)
          (exclStep level (pinStep itemById.item_type level
            (cardStep itemById.item_type level
              (updateLink (fun link => IDField :: link) fields))))) := by
  simp only [scopedFieldsEffect, filteredFields, jsonClone, bind, Except.bind, pure,
    Except.pure,
    handleCardFieldsDisplay_ok fuel data modifiedData _ itemById level hfind hlevel,
    handleIsPinnedDisplay_ok fuel data modifiedData _ itemById level hfind hlevel,
    handleExcludeCardFieldDisplay_ok fuel data modifiedData _ itemById level hfind hlevel]
  rfl

theorem tabKeys_map_replace (key : String) (value : List FieldDescriptor) :
    ∀ fields : FieldSchema,
      tabKeys (fields.map (fun entry => if entry.1 == key then (key, value) else entry))
        = tabKeys fields
  | [] => rfl
  | e :: rest => by
    have ih := tabKeys_map_replace key value rest
    simp only [tabKeys, List.map_cons] at ih ⊢
    rw [ih]
    by_cases he : e.1 = key
    · simp [he]
    · simp [he]

theorem tabKeys_updateLink (f : List FieldDescriptor → List FieldDescriptor)
    (fields : FieldSchema) : tabKeys (updateLink f fields) = tabKeys fields := by
  unfold updateLink
  split
  · rename_i link h
    have hany : fields.any (fun entry => entry.1 == "link") = true := by
      by_contra hn
      rw [getTab_eq_none_of_not_any fields "link" hn] at h
      exact absurd h (by simp)
    unfold setTab
    rw [if_pos hany]
    exact tabKeys_map_replace "link" (f link) fields
  · rfl

theorem tabKeys_deleteTab (fields : FieldSchema) (key : String) :
    tabKeys (deleteTab fields key) = (tabKeys fields).filter (fun k => k != key) := by
  induction fields with
  | nil => rfl
  | cons e rest ih =>
    simp only [tabKeys, deleteTab] at ih ⊢
    by_cases he : e.1 = key
    · simp [List.filter_cons, he, ih]
    · simp [List.filter_cons, he, ih]

theorem tabKeys_cardStep (item_type : Option String) (level : Nat) (fields : FieldSchema) :
    tabKeys (cardStep item_type level fields)
      = (if item_type != some "card" || level == 4 then
          (tabKeys fields).filter (fun k => k != "card") else tabKeys fields) := by
  unfold cardStep
  split
  · exact tabKeys_deleteTab fields "card"
  · rfl

theorem tabKeys_pinStep (item_type : Option String) (level : Nat) (fields : FieldSchema) :
    tabKeys (pinStep item_type level fields) = tabKeys fields := by
  unfold pinStep
  split
  · exact tabKeys_updateLink _ fields
  · rfl

theorem tabKeys_exclStep (level : Nat) (fields : FieldSchema) :
    tabKeys (exclStep level fields) = tabKeys fields := by
  unfold exclStep
  split
  · exact tabKeys_updateLink _ fields
  · rfl

/-! ## Lemmas on dangling references -/

/-- Along a chain that ends in a dangling reference the call throws. -/
theorem getItemNestingLevel_of_dangling (items : List MenuItem) :
    ∀ (ancestors : List MenuItem) (item : MenuItem) (fuel level : Nat),
      isDanglingChain items item ancestors = true → ancestors.length + 1 ≤ fuel →
      getItemNestingLevel fuel items item level = .error .typeError := by
  intro ancestors
  induction ancestors with
  | nil =>
    intro item fuel level h hf
    obtain ⟨n, rfl⟩ : ∃ n, fuel = n + 1 := ⟨fuel - 1, by simp at hf; omega⟩
    cases hp : item.parent with
    | none => simp [isDanglingChain, hp] at h
    | some ref =>
      simp only [isDanglingChain, hp, Option.isNone_iff_eq_none] at h
      simp only [getItemNestingLevel, hp, head?_filter_eq_find?, h]
  | cons p rest ih =>
    intro item fuel level h hf
    obtain ⟨n, rfl⟩ : ∃ n, fuel = n + 1 := ⟨fuel - 1, by simp at hf; omega⟩
    cases hp : item.parent with
    | none => simp [isDanglingChain, hp] at h
    | some ref =>
      simp only [isDanglingChain, hp, Bool.and_eq_true, beq_iff_eq] at h
      have hrec := ih p n (level + 1) h.2 (by simp at hf; omega)
      simp only [getItemNestingLevel, hp, head?_filter_eq_find?, h.1, hrec]

/-- A call that throws has followed a chain that ends in a dangling reference. -/
theorem dangling_of_typeError (items : List MenuItem) :
    ∀ (fuel : Nat) (item : MenuItem) (level : Nat),
      getItemNestingLevel fuel items item level = .error .typeError →
      ∃ ancestors, ancestors.length + 1 ≤ fuel ∧ isDanglingChain items item ancestors = true := by
  intro fuel
  induction fuel with
  | zero =>
    intro item level h
    simp [getItemNestingLevel] at h
  | succ n ih =>
    intro item level h
    cases hp : item.parent with
    | none => simp [getItemNestingLevel, hp] at h
    | some ref =>
      cases hf : items.find? (fun x => x.id == ref.id) with
      | none =>
        exact ⟨[], by simp, by simp [isDanglingChain, hp, hf]⟩
      | some p =>
        simp only [getItemNestingLevel, hp, head?_filter_eq_find?, hf] at h
        obtain ⟨rest, hlen, hrest⟩ := ih p (level + 1) h
        exact ⟨p :: rest, by simp; omega, by simp [isDanglingChain, hp, hf, hrest]⟩

/-- A call that returns a level has followed a parent chain to a root. -/
theorem chain_of_ok (items : List MenuItem) :
    ∀ (fuel : Nat) (item : MenuItem) (level result : Nat),
      getItemNestingLevel fuel items item level = .ok result →
      ∃ ancestors, ancestors.length + 1 ≤ fuel ∧ isParentChain items item ancestors = true ∧
        result = level + ancestors.length := by
  intro fuel
  induction fuel with
  | zero =>
    intro item level result h
    simp [getItemNestingLevel] at h
  | succ n ih =>
    intro item level result h
    cases hp : item.parent with
    | none =>
      simp only [getItemNestingLevel, hp, Except.ok.injEq] at h
      exact ⟨[], by simp, by simp [isParentChain, hp], by simp [h]⟩
    | some ref =>
      cases hf : items.find? (fun x => x.id == ref.id) with
      | none => simp [getItemNestingLevel, hp, head?_filter_eq_find?, hf] at h
      | some p =>
        simp only [getItemNestingLevel, hp, head?_filter_eq_find?, hf] at h
        obtain ⟨rest, hlen, hrest, hres⟩ := ih p (level + 1) result h
        exact ⟨p :: rest, by simp; omega, by simp [isParentChain, hp, hf, hrest],
          by simp; omega⟩

/-! ## Lemmas on the tree node -/

/-- The local state after an event depends on the node through its local state only. -/
theorem stepTree_isOpen_congr (getTrad : String → String)
    (formatMessage : IntlMessage → String) (node₁ node₂ : TreeNode) (event : TreeEvent)
    (h : node₁.isOpen = node₂.isOpen) :
    (stepTree getTrad formatMessage node₁ event).isOpen
      = (stepTree getTrad formatMessage node₂ event).isOpen := by
  cases event with
  | newProps props => exact h
  | click index =>
    match index with
    | 0 | 1 | 2 | 3 => exact h
    | 4 | 5 => rfl
    | n + 6 => exact h

theorem stepTree_isOpen_foldl (getTrad : String → String)
    (formatMessage : IntlMessage → String) :
    ∀ (events : List TreeEvent) (node₁ node₂ : TreeNode), node₁.isOpen = node₂.isOpen →
      (events.foldl (stepTree getTrad formatMessage) node₁).isOpen
        = ((events.filter TreeEvent.isClick).foldl
            (stepTree getTrad formatMessage) node₂).isOpen
  | [], _, _, h => h
  | event :: events, node₁, node₂, h => by
    cases event with
    | newProps props =>
      simp only [List.foldl_cons, TreeEvent.isClick, List.filter_cons, Bool.false_eq_true,
        if_false]
      exact stepTree_isOpen_foldl getTrad formatMessage events _ node₂ h
    | click index =>
      simp only [List.foldl_cons, TreeEvent.isClick, List.filter_cons, if_true]
      exact stepTree_isOpen_foldl getTrad formatMessage events _ _
        (stepTree_isOpen_congr getTrad formatMessage node₁ node₂ (.click index) h)

/-! ## Lemmas on the store -/

theorem prefix_getElem? {α : Type} {l₁ l₂ : List α} (hp : l₁ <+: l₂) {i : Nat}
    (hi : i < l₁.length) : l₂[i]? = l₁[i]? := by
  obtain ⟨t, rfl⟩ := hp
  exact List.getElem?_append_left hi

theorem prefix_set {α : Type} {l₁ l₂ : List α} (hp : l₁ <+: l₂) {i : Nat}
    (hi : l₁.length ≤ i) (x : α) : l₁ <+: l₂.set i x := by
  obtain ⟨t, rfl⟩ := hp
  rw [List.set_append_right _ _ hi]
  exact List.prefix_append _ _

theorem prefix_append_right {α : Type} {l₁ l₂ : List α} (hp : l₁ <+: l₂) (t : List α) :
    l₁ <+: l₂ ++ t :=
  hp.trans (List.prefix_append _ _)

theorem readObject_writeObject (h : Heap) (ref : Nat) (object : List (String × Nat))
    (href : ref < h.objects.length) : readObject (writeObject h ref object) ref = object := by
  simp [readObject, writeObject, List.getElem?_set, href]

theorem readArray_writeArray_self (h : Heap) (a : Nat) (array : List FieldDescriptor)
    (ha : a < h.arrays.length) : readArray (writeArray h a array) a = array := by
  simp [readArray, writeArray, List.getElem?_set, ha]

theorem readArray_writeArray_ne (h : Heap) (a b : Nat) (array : List FieldDescriptor)
    (hne : b ≠ a) : readArray (writeArray h a array) b = readArray h b := by
  have hne2 : ¬ a = b := fun e => hne e.symm
  simp [readArray, writeArray, List.getElem?_set, hne2]

theorem readArray_allocArray_old (h : Heap) (array : List FieldDescriptor) (b : Nat)
    (hb : b < h.arrays.length) : readArray (allocArray h array).1 b = readArray h b := by
  simp [readArray, allocArray, List.getElem?_append_left hb]

theorem readArray_allocArray_new (h : Heap) (array : List FieldDescriptor) :
    readArray (allocArray h array).1 (allocArray h array).2 = array := by
  simp [readArray, allocArray]

/-- Reading a property of the value seen through an object. -/
theorem getTab_map_read (read : Nat → List FieldDescriptor) (key : String) :
    ∀ object : List (String × Nat),
      getTab (object.map (fun entry => (entry.1, read entry.2))) key
        = (getProp object key).map read
  | [] => rfl
  | e :: rest => by
    have ih := getTab_map_read read key rest
    by_cases he : e.1 = key
    · simp [getTab_cons, getProp, he]
    · simpa [getTab_cons, getProp, he] using ih

/-- Deleting a property of the object deletes it from the value. -/
theorem deleteTab_map_read (read : Nat → List FieldDescriptor) (key : String)
    (object : List (String × Nat)) :
    deleteTab (object.map (fun entry => (entry.1, read entry.2))) key
      = (deleteProp object key).map (fun entry => (entry.1, read entry.2)) := by
  induction object with
  | nil => rfl
  | cons e rest ih =>
    simp only [deleteTab, deleteProp] at ih ⊢
    by_cases he : e.1 = key
    · simp [List.filter_cons, he, ih]
    · simp [List.filter_cons, he, ih]

theorem any_key_of_getProp {object : List (String × Nat)} {key : String} {a : Nat}
    (h : getProp object key = some a) :
    object.any (fun entry => entry.1 == key) = true ∧ (key, a) ∈ object := by
  unfold getProp at h
  cases hf : object.find? (fun entry => entry.1 == key) with
  | none => rw [hf] at h; exact absurd h (by simp)
  | some e =>
    rw [hf] at h
    have hmem := List.mem_of_find?_eq_some hf
    have hkey : e.1 = key := by simpa using List.find?_some hf
    have ha : e.2 = a := by simpa using h
    refine ⟨List.any_eq_true.2 ⟨e, hmem, by simp [hkey]⟩, ?_⟩
    have : e = (key, a) := Prod.ext hkey ha
    rw [← this]
    exact hmem

/-- Writing a property of the value, seen on the object: the entries under `key` hold
an array that reads as the new text, the other entries read as before. -/
theorem setTab_map_read (read read' : Nat → List FieldDescriptor) (key : String)
    (value : List FieldDescriptor) (object object' : List (String × Nat))
    (hany : object.any (fun entry => entry.1 == key) = true)
    (hkeys : object'.map Prod.fst = object.map Prod.fst)
    (hsame : ∀ i (hi : i < object.length) (hi' : i < object'.length),
      (object[i]).1 ≠ key → read' (object'[i]).2 = read (object[i]).2)
    (hnew : ∀ i (hi : i < object.length) (hi' : i < object'.length),
      (object[i]).1 = key → read' (object'[i]).2 = value) :
    setTab (object.map (fun entry => (entry.1, read entry.2))) key value
      = object'.map (fun entry => (entry.1, read' entry.2)) := by
  have hlen : object'.length = object.length := by
    simpa using congrArg List.length hkeys
  have hany' : (object.map (fun entry => (entry.1, read entry.2))).any
      (fun entry => entry.1 == key) = true := by
    obtain ⟨e, he, hk⟩ := List.any_eq_true.1 hany
    exact List.any_eq_true.2 ⟨(e.1, read e.2), List.mem_map.2 ⟨e, he, rfl⟩, hk⟩
  unfold setTab
  rw [if_pos hany']
  apply List.ext_getElem
  · simp [hlen]
  · intro i h1 h2
    have hi : i < object.length := by simpa using h1
    have hi' : i < object'.length := by simpa using h2
    have hk : (object'[i]).1 = (object[i]).1 := by
      have := congrArg (fun l => l[i]?) hkeys
      simpa [hi, hi'] using this
    simp only [List.getElem_map]
    by_cases he : (object[i]).1 = key
    · simp [he, hk, hnew i hi hi' he]
    · simp [he, hk, hsame i hi hi' he]

theorem getElem_map_replace (key : String) (a : Nat) (object : List (String × Nat)) (i : Nat)
    (hi : i < object.length)
    (hi' : i < (object.map (fun entry => if entry.1 == key then (key, a) else entry)).length) :
    (object.map (fun entry => if entry.1 == key then (key, a) else entry))[i]
      = if (object[i]).1 == key then (key, a) else object[i] := by
  simp

/-- Assigning to a property the array it already holds leaves the object as it is. -/
theorem setProp_same (object : List (String × Nat)) (key : String) (a : Nat)
    (hget : getProp object key = some a)
    (hcons : ∀ e₁ ∈ object, ∀ e₂ ∈ object, (e₁.1 = e₂.1 ↔ e₁.2 = e₂.2)) :
    setProp object key a = object := by
  obtain ⟨hany, hmem⟩ := any_key_of_getProp hget
  unfold setProp
  rw [if_pos hany]
  have hid : ∀ e ∈ object, (if e.1 == key then (key, a) else e) = e := by
    intro e he
    by_cases hk : e.1 = key
    · have h2 : e.2 = a := (hcons e he (key, a) hmem).1 hk
      have heq : e = (key, a) := Prod.ext hk h2
      rw [if_pos (by simp [hk])]
      exact heq.symm
    · simp [hk]
  calc object.map (fun entry => if entry.1 == key then (key, a) else entry)
      = object.map id := List.map_congr_left hid
    _ = object := List.map_id object

/-- An in-place update of the array under `link` (`unshift`, `sort`). -/
theorem writeLink_step (f : List FieldDescriptor → List FieldDescriptor) (h₀ h : Heap)
    (c a : Nat) (hinv : CloneInv h₀ h c) (hget : getProp (readObject h c) "link" = some a) :
    CloneInv h₀ (writeArray h a (f (readArray h a))) c ∧
    schemaAt (writeArray h a (f (readArray h a))) c = updateLink f (schemaAt h c) := by
  obtain ⟨hpa, hpo, hc, hclt, hbounds, hcons⟩ := hinv
  obtain ⟨hany, hmem⟩ := any_key_of_getProp hget
  have ha := hbounds _ hmem
  have hobj : readObject (writeArray h a (f (readArray h a))) c = readObject h c := rfl
  refine ⟨⟨prefix_set hpa ha.1 _, hpo, hc, hclt, ?_, ?_⟩, ?_⟩
  · intro e he
    rw [hobj] at he
    simpa [writeArray] using hbounds e he
  · rw [hobj]; exact hcons
  · have hgt : getTab (schemaAt h c) "link" = some (readArray h a) := by
      unfold schemaAt
      rw [getTab_map_read, hget]
      rfl
    unfold updateLink
    rw [hgt]
    simp only []
    unfold schemaAt
    rw [hobj]
    symm
    apply setTab_map_read (readArray h) (readArray (writeArray h a (f (readArray h a)))) "link"
      (f (readArray h a)) (readObject h c) (readObject h c) hany rfl
    · intro i hi _ hk
      apply readArray_writeArray_ne
      intro he
      exact hk ((hcons _ (List.getElem_mem hi) _ hmem).2 he)
    · intro i hi _ hk
      have he : ((readObject h c)[i]).2 = a := (hcons _ (List.getElem_mem hi) _ hmem).1 hk
      rw [he]
      exact readArray_writeArray_self h a _ ha.2

/-- The update of the object by `delete clonedFields.card`. -/
theorem deleteCard_step (h₀ h : Heap) (c : Nat) (hinv : CloneInv h₀ h c) :
    CloneInv h₀ (writeObject h c (deleteProp (readObject h c) "card")) c ∧
    schemaAt (writeObject h c (deleteProp (readObject h c) "card")) c
      = deleteTab (schemaAt h c) "card" := by
  obtain ⟨hpa, hpo, hc, hclt, hbounds, hcons⟩ := hinv
  have hobj : readObject (writeObject h c (deleteProp (readObject h c) "card")) c
      = deleteProp (readObject h c) "card" := readObject_writeObject h c _ hclt
  have hsub : ∀ e ∈ deleteProp (readObject h c) "card", e ∈ readObject h c :=
    fun e he => (List.mem_filter.1 he).1
  refine ⟨⟨hpa, prefix_set hpo (le_of_eq hc.symm) _, hc, ?_, ?_, ?_⟩, ?_⟩
  · simpa [writeObject] using hclt
  · intro e he
    rw [hobj] at he
    exact hbounds e (hsub e he)
  · rw [hobj]
    exact fun e₁ h₁ e₂ h₂ => hcons e₁ (hsub e₁ h₁) e₂ (hsub e₂ h₂)
  · unfold schemaAt
    rw [hobj, deleteTab_map_read]
    rfl

/-- Writing to the copy the object it already is. -/
theorem writeSame_step (h₀ h : Heap) (c : Nat) (hinv : CloneInv h₀ h c) :
    CloneInv h₀ (writeObject h c (readObject h c)) c ∧
    schemaAt (writeObject h c (readObject h c)) c = schemaAt h c := by
  obtain ⟨hpa, hpo, hc, hclt, hbounds, hcons⟩ := hinv
  have hobj : readObject (writeObject h c (readObject h c)) c = readObject h c :=
    readObject_writeObject h c _ hclt
  refine ⟨⟨hpa, prefix_set hpo (le_of_eq hc.symm) _, hc, ?_, ?_, ?_⟩, ?_⟩
  · simpa [writeObject] using hclt
  · intro e he
    rw [hobj] at he
    exact hbounds e he
  · rw [hobj]; exact hcons
  · unfold schemaAt
    rw [hobj]
    rfl

/-- The source's `addIDField` on the store does to the value what `addIDField` does. -/
theorem addIDFieldH_step (h₀ h : Heap) (c : Nat) (hinv : CloneInv h₀ h c) :
    CloneInv h₀ (addIDFieldH h c) c ∧
    schemaAt (addIDFieldH h c) c = updateLink (fun link => IDField :: link) (schemaAt h c) := by
  unfold addIDFieldH
  cases hget : getProp (readObject h c) "link" with
  | none =>
    refine ⟨hinv, ?_⟩
    have hgt : getTab (schemaAt h c) "link" = none := by
      unfold schemaAt
      rw [getTab_map_read, hget]
      rfl
    unfold updateLink
    rw [hgt]
  | some a => exact writeLink_step (fun link => IDField :: link) h₀ h c a hinv hget

/-- The source's `prioritizeItemTypeInput` on the store does to the value what
`prioritizeItemTypeInput` does. -/
theorem prioritizeItemTypeInputH_step (h₀ h : Heap) (c : Nat) (hinv : CloneInv h₀ h c) :
    CloneInv h₀ (prioritizeItemTypeInputH h c) c ∧
    schemaAt (prioritizeItemTypeInputH h c) c
      = updateLink (arraySort compareFields) (schemaAt h c) := by
  unfold prioritizeItemTypeInputH
  cases hget : getProp (readObject h c) "link" with
  | none =>
    refine ⟨hinv, ?_⟩
    have hgt : getTab (schemaAt h c) "link" = none := by
      unfold schemaAt
      rw [getTab_map_read, hget]
      rfl
    unfold updateLink
    rw [hgt]
  | some a =>
    obtain ⟨hinv1, hval1⟩ := writeLink_step (arraySort compareFields) h₀ h c a hinv hget
    have hobj : readObject (writeArray h a (arraySort compareFields (readArray h a))) c
        = readObject h c := rfl
    have hsame : setProp (readObject (writeArray h a (arraySort compareFields (readArray h a))) c)
        "link" a = readObject (writeArray h a (arraySort compareFields (readArray h a))) c := by
      rw [hobj]
      exact setProp_same _ _ _ hget hinv.2.2.2.2.2
    simp only []
    rw [hsame]
    obtain ⟨hinv2, hval2⟩ := writeSame_step h₀ _ c hinv1
    exact ⟨hinv2, hval2.trans hval1⟩

/-- The assignment of a filtered array does to the value what the filter on the `link`
tab does. -/
theorem assignFilteredLink_step (keep : FieldDescriptor → Bool) (h₀ h : Heap) (c : Nat)
    (hinv : CloneInv h₀ h c) :
    CloneInv h₀ (assignFilteredLink keep h c) c ∧
    schemaAt (assignFilteredLink keep h c) c
      = updateLink (fun link => link.filter keep) (schemaAt h c) := by
  unfold assignFilteredLink
  cases hget : getProp (readObject h c) "link" with
  | none =>
    refine ⟨hinv, ?_⟩
    have hgt : getTab (schemaAt h c) "link" = none := by
      unfold schemaAt
      rw [getTab_map_read, hget]
      rfl
    unfold updateLink
    rw [hgt]
  | some a =>
    obtain ⟨hpa, hpo, hc, hclt, hbounds, hcons⟩ := hinv
    obtain ⟨hany, hmem⟩ := any_key_of_getProp hget
    have hn₀ : h₀.arrays.length ≤ h.arrays.length := hpa.length_le
    -- the store after the allocation and the object assigned
    have hobj1 : readObject (allocArray h ((readArray h a).filter keep)).1 c = readObject h c :=
      rfl
    have halen : (allocArray h ((readArray h a).filter keep)).1.arrays.length
        = h.arrays.length + 1 := by simp [allocArray]
    have hnew : (allocArray h ((readArray h a).filter keep)).2 = h.arrays.length := rfl
    have hset : setProp (readObject h c) "link" h.arrays.length
        = (readObject h c).map
            (fun entry => if entry.1 == "link" then ("link", h.arrays.length) else entry) := by
      unfold setProp
      rw [if_pos hany]
    have hclt1 : c < (allocArray h ((readArray h a).filter keep)).1.objects.length := hclt
    have hobj : readObject (writeObject (allocArray h ((readArray h a).filter keep)).1 c
        (setProp (readObject (allocArray h ((readArray h a).filter keep)).1 c) "link"
          (allocArray h ((readArray h a).filter keep)).2)) c
        = (readObject h c).map
            (fun entry => if entry.1 == "link" then ("link", h.arrays.length) else entry) := by
      rw [readObject_writeObject _ _ _ hclt1, hobj1, hnew, hset]
    have hmem' : ∀ e ∈ (readObject h c).map
        (fun entry => if entry.1 == "link" then ("link", h.arrays.length) else entry),
        (e = ("link", h.arrays.length)) ∨ (e ∈ readObject h c ∧ e.1 ≠ "link") := by
      intro e he
      obtain ⟨e₀, he₀, rfl⟩ := List.mem_map.1 he
      by_cases hk : e₀.1 = "link"
      · left; simp [hk]
      · right; simp [hk, he₀]
    simp only []
    refine ⟨⟨?_, ?_, hc, ?_, ?_, ?_⟩, ?_⟩
    · exact prefix_append_right hpa _
    · exact prefix_set hpo (le_of_eq hc.symm) _
    · simpa [writeObject, allocArray] using hclt
    · intro e he
      rw [hobj] at he
      have hlen : (writeObject (allocArray h ((readArray h a).filter keep)).1 c
          (setProp (readObject (allocArray h ((readArray h a).filter keep)).1 c) "link"
            (allocArray h ((readArray h a).filter keep)).2)).arrays.length
          = h.arrays.length + 1 := halen
      rw [hlen]
      rcases hmem' e he with h1 | ⟨h1, _⟩
      · rw [h1]; exact ⟨hn₀, Nat.lt_succ_self _⟩
      · exact ⟨(hbounds e h1).1, Nat.lt_succ_of_lt (hbounds e h1).2⟩
    · rw [hobj]
      intro e₁ he₁ e₂ he₂
      rcases hmem' e₁ he₁ with h1 | ⟨h1, hk1⟩ <;> rcases hmem' e₂ he₂ with h2 | ⟨h2, hk2⟩
      · rw [h1, h2]; simp
      · rw [h1]
        have hlt := (hbounds e₂ h2).2
        constructor
        · intro hk; exact absurd hk.symm hk2
        · intro hr; simp at hr; omega
      · rw [h2]
        have hlt := (hbounds e₁ h1).2
        constructor
        · intro hk; exact absurd hk hk1
        · intro hr; simp at hr; omega
      · exact hcons e₁ h1 e₂ h2
    · have hgt : getTab (schemaAt h c) "link" = some (readArray h a) := by
        unfold schemaAt
        rw [getTab_map_read, hget]
        rfl
      unfold updateLink
      rw [hgt]
      simp only []
      unfold schemaAt
      rw [hobj]
      symm
      apply setTab_map_read (readArray h) _ "link" ((readArray h a).filter keep)
        (readObject h c) _ hany
      · rw [List.map_map]
        apply List.map_congr_left
        intro e _
        by_cases hk : e.1 = "link" <;> simp [hk]
      · intro i hi hi' hk
        rw [getElem_map_replace "link" h.arrays.length (readObject h c) i hi hi']
        have hk' : ¬ (((readObject h c)[i]).1 == "link") = true := by simpa using hk
        rw [if_neg hk']
        exact readArray_allocArray_old h _ _ (hbounds _ (List.getElem_mem hi)).2
      · intro i hi hi' hk
        rw [getElem_map_replace "link" h.arrays.length (readObject h c) i hi hi']
        have hk' : (((readObject h c)[i]).1 == "link") = true := by simpa using hk
        rw [if_pos hk']
        exact readArray_allocArray_new h _

theorem cloneEntries_bounds :
    ∀ (value : FieldSchema) (a : Nat), ∀ e ∈ cloneEntries a value,
      a ≤ e.2 ∧ e.2 < a + value.length
  | [], _, e, he => by simp [cloneEntries] at he
  | (key, text) :: rest, a, e, he => by
    simp only [cloneEntries, List.mem_cons] at he
    rcases he with h | h
    · rw [h]; simp
    · have := cloneEntries_bounds rest (a + 1) e h
      simp only [List.length_cons]
      omega

theorem cloneEntries_keys :
    ∀ (value : FieldSchema) (a : Nat), (cloneEntries a value).map Prod.fst = value.map Prod.fst
  | [], _ => rfl
  | (key, text) :: rest, a => by
    simp [cloneEntries, cloneEntries_keys rest (a + 1)]

/-- In the copy of an object with distinct keys, two entries have the same key exactly
when they hold the same array. -/
theorem cloneEntries_consistent :
    ∀ (value : FieldSchema) (a : Nat), (value.map Prod.fst).Nodup →
      ∀ e₁ ∈ cloneEntries a value, ∀ e₂ ∈ cloneEntries a value, (e₁.1 = e₂.1 ↔ e₁.2 = e₂.2)
  | [], _, _, e₁, he₁, _, _ => by simp [cloneEntries] at he₁
  | (key, text) :: rest, a, hnd, e₁, he₁, e₂, he₂ => by
    simp only [List.map_cons, List.nodup_cons] at hnd
    have hkey : ∀ e ∈ cloneEntries (a + 1) rest, e.1 ≠ key ∧ e.2 ≠ a := by
      intro e he
      refine ⟨?_, ?_⟩
      · intro hk
        apply hnd.1
        rw [← cloneEntries_keys rest (a + 1), ← hk]
        exact List.mem_map_of_mem Prod.fst he
      · have := (cloneEntries_bounds rest (a + 1) e he).1
        omega
    simp only [cloneEntries, List.mem_cons] at he₁ he₂
    rcases he₁ with h1 | h1 <;> rcases he₂ with h2 | h2
    · rw [h1, h2]; simp
    · rw [h1]
      have := hkey e₂ h2
      constructor
      · intro hk; exact absurd hk.symm this.1
      · intro hr; exact absurd hr.symm this.2
    · rw [h2]
      have := hkey e₁ h1
      constructor
      · intro hk; exact absurd hk this.1
      · intro hr; exact absurd hr this.2
    · exact cloneEntries_consistent rest (a + 1) hnd.2 e₁ h1 e₂ h2

/-- The copy reads as the value copied. -/
theorem cloneEntries_read :
    ∀ (value : FieldSchema) (arrays : List (List FieldDescriptor)),
      (cloneEntries arrays.length value).map
          (fun entry => (entry.1, ((arrays ++ value.map Prod.snd)[entry.2]?).getD []))
        = value
  | [], _ => rfl
  | (key, text) :: rest, arrays => by
    have ih := cloneEntries_read rest (arrays ++ [text])
    simp only [List.length_append, List.length_singleton, List.append_assoc,
      List.singleton_append] at ih
    simp only [cloneEntries, List.map_cons, List.cons.injEq, Prod.mk.injEq, true_and]
    refine ⟨?_, ih⟩
    rw [List.getElem?_append_right (le_refl _)]
    simp

/-- The deep copy establishes the invariant and reads as the value of the base schema. -/
theorem jsonCloneH_step (h₀ : Heap) (fields : Nat) (hwf : isSchemaRef h₀ fields = true) :
    CloneInv h₀ (jsonCloneH h₀ fields).1 (jsonCloneH h₀ fields).2 ∧
    schemaAt (jsonCloneH h₀ fields).1 (jsonCloneH h₀ fields).2 = schemaAt h₀ fields := by
  have hnd : ((schemaAt h₀ fields).map Prod.fst).Nodup := by
    simp only [isSchemaRef, Bool.and_eq_true, decide_eq_true_eq] at hwf
    have hk : (schemaAt h₀ fields).map Prod.fst = (readObject h₀ fields).map Prod.fst := by
      simp [schemaAt, List.map_map, Function.comp_def]
    rw [hk]
    exact hwf.2
  have hobj : readObject (jsonCloneH h₀ fields).1 (jsonCloneH h₀ fields).2
      = cloneEntries h₀.arrays.length (schemaAt h₀ fields) := by
    simp [readObject, jsonCloneH]
  refine ⟨⟨?_, ?_, rfl, ?_, ?_, ?_⟩, ?_⟩
  · exact List.prefix_append _ _
  · exact List.prefix_append _ _
  · simp [jsonCloneH]
  · intro e he
    rw [hobj] at he
    have := cloneEntries_bounds (schemaAt h₀ fields) h₀.arrays.length e he
    simp only [jsonCloneH, List.length_append, List.length_map]
    exact this
  · rw [hobj]
    exact cloneEntries_consistent (schemaAt h₀ fields) h₀.arrays.length hnd
  · unfold schemaAt
    rw [hobj]
    exact cloneEntries_read (schemaAt h₀ fields) h₀.arrays

/-- A schema object whose arrays are allocated reads the same in every store that
extends the store. -/
theorem schemaAt_of_prefix_valid (h₀ h : Heap) (ref : Nat) (hlt : ref < h₀.objects.length)
    (hrefs : ∀ e ∈ readObject h₀ ref, e.2 < h₀.arrays.length)
    (hpa : h₀.arrays <+: h.arrays) (hpo : h₀.objects <+: h.objects) :
    readObject h ref = readObject h₀ ref ∧ schemaAt h ref = schemaAt h₀ ref := by
  have hobj : readObject h ref = readObject h₀ ref := by
    unfold readObject
    rw [prefix_getElem? hpo hlt]
  have hread : ∀ e ∈ readObject h₀ ref, readArray h e.2 = readArray h₀ e.2 := by
    intro e he
    unfold readArray
    rw [prefix_getElem? hpa (hrefs e he)]
  refine ⟨hobj, ?_⟩
  unfold schemaAt
  rw [hobj]
  apply List.map_congr_left
  intro e he
  rw [hread e he]

/-- What the store held before the effect reads the same after it. -/
theorem schemaAt_of_prefix (h₀ h : Heap) (fields : Nat) (hwf : isSchemaRef h₀ fields = true)
    (hpa : h₀.arrays <+: h.arrays) (hpo : h₀.objects <+: h.objects) :
    schemaAt h fields = schemaAt h₀ fields ∧ isSchemaRef h fields = true := by
  simp only [isSchemaRef, Bool.and_eq_true, decide_eq_true_eq, List.all_eq_true] at hwf
  obtain ⟨⟨hlt, hrefs⟩, hnd⟩ := hwf
  obtain ⟨hobj, hval⟩ := schemaAt_of_prefix_valid h₀ h fields hlt hrefs hpa hpo
  refine ⟨hval, ?_⟩
  simp only [isSchemaRef, Bool.and_eq_true, decide_eq_true_eq, List.all_eq_true, hobj]
  exact ⟨⟨lt_of_lt_of_le hlt hpo.length_le,
    fun e he => lt_of_lt_of_le (hrefs e he) hpa.length_le⟩, hnd⟩

theorem cardH_step (item_type : Option String) (level : Nat) (h₀ h : Heap) (c : Nat)
    (hinv : CloneInv h₀ h c) :
    CloneInv h₀
      (if item_type != some "card" || level == 4 then
        writeObject h c (deleteProp (readObject h c) "card") else h) c ∧
    schemaAt
      (if item_type != some "card" || level == 4 then
        writeObject h c (deleteProp (readObject h c) "card") else h) c
      = cardStep item_type level (schemaAt h c) := by
  unfold cardStep
  split
  · exact deleteCard_step h₀ h c hinv
  · exact ⟨hinv, rfl⟩

theorem pinH_step (item_type : Option String) (level : Nat) (h₀ h : Heap) (c : Nat)
    (hinv : CloneInv h₀ h c) :
    CloneInv h₀
      (if item_type == some "card" || level == 1 || level == 2 then
        assignFilteredLink (fun link => link.input.name != "is_pinned") h c else h) c ∧
    schemaAt
      (if item_type == some "card" || level == 1 || level == 2 then
        assignFilteredLink (fun link => link.input.name != "is_pinned") h c else h) c
      = pinStep item_type level (schemaAt h c) := by
  unfold pinStep
  split
  · exact assignFilteredLink_step _ h₀ h c hinv
  · exact ⟨hinv, rfl⟩

theorem exclH_step (level : Nat) (h₀ h : Heap) (c : Nat) (hinv : CloneInv h₀ h c) :
    CloneInv h₀
      (if level == 3 || level == 4 then
        assignFilteredLink (fun link => link.input.name != "excluded_card_ids") h c
       else h) c ∧
    schemaAt
      (if level == 3 || level == 4 then
        assignFilteredLink (fun link => link.input.name != "excluded_card_ids") h c
       else h) c
      = exclStep level (schemaAt h c) := by
  unfold exclStep
  split
  · exact assignFilteredLink_step _ h₀ h c hinv
  · exact ⟨hinv, rfl⟩

theorem handleCardFieldsDisplayH_ok (fuel : Nat) (data : MenuItem) (modifiedData : MenuData)
    (h : Heap) (c : Nat) (itemById : MenuItem) (level : Nat)
    (hfind : modifiedData.items.find? (fun x => x.id == data.id) = some itemById)
    (hlevel : getItemNestingLevel fuel modifiedData.items itemById 1 = .ok level) :
    handleCardFieldsDisplayH fuel data modifiedData h c
      = .ok (if itemById.item_type != some "card" || level == 4 then
          writeObject h c (deleteProp (readObject h c) "card") else h) := by
  simp only [handleCardFieldsDisplayH, head?_filter_eq_find?, hfind, hlevel]
  split <;> rfl

theorem handleIsPinnedDisplayH_ok (fuel : Nat) (data : MenuItem) (modifiedData : MenuData)
    (h : Heap) (c : Nat) (itemById : MenuItem) (level : Nat)
    (hfind : modifiedData.items.find? (fun x => x.id == data.id) = some itemById)
    (hlevel : getItemNestingLevel fuel modifiedData.items itemById 1 = .ok level) :
    handleIsPinnedDisplayH fuel data modifiedData h c
      = .ok (if itemById.item_type == some "card" || level == 1 || level == 2 then
          assignFilteredLink (fun link => link.input.name != "is_pinned") h c else h) := by
  simp only [handleIsPinnedDisplayH, head?_filter_eq_find?, hfind, hlevel]
  split <;> rfl

theorem handleExcludeCardFieldDisplayH_ok (fuel : Nat) (data : MenuItem)
    (modifiedData : MenuData) (h : Heap) (c : Nat) (itemById : MenuItem) (level : Nat)
    (hfind : modifiedData.items.find? (fun x => x.id == data.id) = some itemById)
    (hlevel : getItemNestingLevel fuel modifiedData.items itemById 1 = .ok level) :
    handleExcludeCardFieldDisplayH fuel data modifiedData h c
      = .ok (if level == 3 || level == 4 then
          assignFilteredLink (fun link => link.input.name != "excluded_card_ids") h c
         else h) := by
  simp only [handleExcludeCardFieldDisplayH, head?_filter_eq_find?, hfind, hlevel]
  split <;> rfl

/-- The effect on the store leaves what the store held, and hands to `setScopedFields`
a reference that reads as the value that `scopedFieldsEffect` computes from the value of
the base schema (or throws the same error). -/
theorem scopedFieldsEffectH_spec (fuel : Nat) (data : MenuItem) (modifiedData : MenuData)
    (h₀ : Heap) (fields : Nat) (hwf : isSchemaRef h₀ fields = true) :
    h₀.arrays <+: (scopedFieldsEffectH fuel data modifiedData h₀ fields).1.arrays ∧
    h₀.objects <+: (scopedFieldsEffectH fuel data modifiedData h₀ fields).1.objects ∧
    (scopedFieldsEffectH fuel data modifiedData h₀ fields).2.map
        (schemaAt (scopedFieldsEffectH fuel data modifiedData h₀ fields).1)
      = scopedFieldsEffect fuel data modifiedData (schemaAt h₀ fields) ∧
    (∀ c, (scopedFieldsEffectH fuel data modifiedData h₀ fields).2 = .ok c →
      c < (scopedFieldsEffectH fuel data modifiedData h₀ fields).1.objects.length ∧
      ∀ e ∈ readObject (scopedFieldsEffectH fuel data modifiedData h₀ fields).1 c,
        e.2 < (scopedFieldsEffectH fuel data modifiedData h₀ fields).1.arrays.length) := by
  obtain ⟨hinv0, hval0⟩ := jsonCloneH_step h₀ fields hwf
  obtain ⟨hinv1, hval1⟩ := addIDFieldH_step h₀ _ _ hinv0
  rw [hval0] at hval1
  cases hfind : modifiedData.items.find? (fun x => x.id == data.id) with
  | none =>
    have hH : scopedFieldsEffectH fuel data modifiedData h₀ fields
        = (addIDFieldH (jsonCloneH h₀ fields).1 (jsonCloneH h₀ fields).2,
            .error .typeError) := by
      simp only [scopedFieldsEffectH, handleCardFieldsDisplayH, head?_filter_eq_find?, hfind]
    have hP : scopedFieldsEffect fuel data modifiedData (schemaAt h₀ fields)
        = .error .typeError := by
      simp only [scopedFieldsEffect, filteredFields, handleCardFieldsDisplay,
        head?_filter_eq_find?, hfind, bind, Except.bind]
    rw [hH, hP]
    exact ⟨hinv1.1, hinv1.2.1, rfl, fun c hc => absurd hc (by simp)⟩
  | some itemById =>
    cases hlevel : getItemNestingLevel fuel modifiedData.items itemById 1 with
    | error e =>
      have hH : scopedFieldsEffectH fuel data modifiedData h₀ fields
          = (addIDFieldH (jsonCloneH h₀ fields).1 (jsonCloneH h₀ fields).2, .error e) := by
        simp only [scopedFieldsEffectH, handleCardFieldsDisplayH, head?_filter_eq_find?,
          hfind, hlevel]
      have hP : scopedFieldsEffect fuel data modifiedData (schemaAt h₀ fields)
          = .error e := by
        simp only [scopedFieldsEffect, filteredFields, handleCardFieldsDisplay,
          head?_filter_eq_find?, hfind, hlevel, bind, Except.bind]
      rw [hH, hP]
      exact ⟨hinv1.1, hinv1.2.1, rfl, fun c hc => absurd hc (by simp)⟩
    | ok level =>
      obtain ⟨hinv2, hval2⟩ := cardH_step itemById.item_type level h₀ _ _ hinv1
      obtain ⟨hinv3, hval3⟩ := pinH_step itemById.item_type level h₀ _ _ hinv2
      obtain ⟨hinv4, hval4⟩ := exclH_step level h₀ _ _ hinv3
      obtain ⟨hinv5, hval5⟩ := prioritizeItemTypeInputH_step h₀ _ _ hinv4
      rw [hval4, hval3, hval2, hval1] at hval5
      rw [scopedFieldsEffect_eq fuel data modifiedData _ itemById level hfind hlevel]
      simp only [scopedFieldsEffectH,
        handleCardFieldsDisplayH_ok fuel data modifiedData _ _ itemById level hfind hlevel,
        handleIsPinnedDisplayH_ok fuel data modifiedData _ _ itemById level hfind hlevel,
        handleExcludeCardFieldDisplayH_ok fuel data modifiedData _ _ itemById level hfind
          hlevel]
      refine ⟨hinv5.1, hinv5.2.1, congrArg Except.ok hval5, ?_⟩
      intro c hc
      rw [Except.ok.injEq] at hc
      subst hc
      exact ⟨hinv5.2.2.2.1, fun e he => (hinv5.2.2.2.2.1 e he).2⟩

/-! ## Claims -/

/-- C1. If following `parent.id` by first-match lookup from `item` visits exactly
`ancestors.length + 1` items and ends at an item with a `null` parent, then
`getItemNestingLevel(items, item)` returns (with any fuel of at least that many calls)
the number of items visited; and it returns 1 for every item whose parent is `null`,
whatever `items` contains. -/
theorem C1_nesting_level_is_chain_length (items : List MenuItem) (item : MenuItem) :
    (∀ (ancestors : List MenuItem) (fuel : Nat),
        isParentChain items item ancestors = true → ancestors.length + 1 ≤ fuel →
        getItemNestingLevel fuel items item 1 = .ok (ancestors.length + 1)) ∧
    (item.parent = none → ∀ fuel : Nat, 1 ≤ fuel →
        getItemNestingLevel fuel items item 1 = .ok 1) := by
  refine ⟨?_, ?_⟩
  · intro ancestors fuel h hf
    rw [getItemNestingLevel_of_chain items ancestors item fuel 1 h hf, Nat.add_comm]
  · intro hp fuel hf
    have h : isParentChain items item [] = true := by simp [isParentChain, hp]
    simpa using getItemNestingLevel_of_chain items [] item fuel 1 h (by simpa using hf)

/-- Witness for C1 on the chain C → B → A of three items. -/
theorem C1_nesting_level_is_chain_length_witness :
    isParentChain chainItems itemC [itemB, itemA] = true ∧
    getItemNestingLevel 3 chainItems itemC 1 = .ok 3 :=
  ⟨by decide,
   (C1_nesting_level_is_chain_length chainItems itemC).1 [itemB, itemA] 3
     (by decide) (by decide)⟩



/-- C2. For a selected item that the collection resolves (first match on `data.id`) to
`item`, whose parent chain visits `ancestors.length + 1` items, the effect produces a
scoped schema, and that schema has a `card` tab if and only if the base schema has a
`card` tab, the `item_type` of the item is `'card'`, and its nesting level is not 4. -/
theorem C2_card_tab_iff (fuel : Nat) (data : MenuItem) (modifiedData : MenuData)
    (fields : FieldSchema) (item : MenuItem) (ancestors : List MenuItem)
    (hsel : modifiedData.items.find? (fun x => x.id == data.id) = some item)
    (hchain : isParentChain modifiedData.items item ancestors = true)
    (hfuel : ancestors.length + 1 ≤ fuel) :
    ∃ result, scopedFieldsEffect fuel data modifiedData fields = .ok result ∧
      (hasTab result "card" = true ↔
        (hasTab fields "card" = true ∧ item.item_type = some "card" ∧
          ancestors.length + 1 ≠ 4)) := by
  obtain ⟨_, result, _, hrun, _, _, hcard, _⟩ :=
    scopedFieldsEffect_spec fuel data modifiedData fields item (ancestors.length + 1) hsel
      (getItemNestingLevel_chain_one modifiedData.items ancestors item fuel hchain hfuel)
  refine ⟨result, hrun, ?_⟩
  unfold hasTab
  rw [hcard]
  by_cases hty : item.item_type = some "card"
  · by_cases hl : ancestors.length + 1 = 4
    · simp [hty, hl]
    · have hl2 : ¬ ancestors.length = 3 := fun h => hl (by omega)
      simp [hty, hl2]
  · simp [hty]

/-- Witness for C2: the card `C` at level 3 keeps the `card` tab of the example schema. -/
theorem C2_card_tab_iff_witness :
    ∃ result, scopedFieldsEffect 3 itemC ⟨chainItems⟩ exampleFields = .ok result ∧
      (hasTab result "card" = true ↔
        (hasTab exampleFields "card" = true ∧ itemC.item_type = some "card" ∧
          [itemB, itemA].length + 1 ≠ 4)) :=
  C2_card_tab_iff 3 itemC ⟨chainItems⟩ exampleFields itemC [itemB, itemA]
    (by decide) (by decide) (by decide)

/-- C3. For a selected item resolved to `item` at nesting level `ancestors.length + 1`:
if its `item_type` is `'card'` or its level is 1 or 2, the scoped `link` tab has no field
named `is_pinned`; otherwise every `is_pinned` field of the base `link` tab is in the
scoped `link` tab. -/
theorem C3_is_pinned_filter (fuel : Nat) (data : MenuItem) (modifiedData : MenuData)
    (fields : FieldSchema) (item : MenuItem) (ancestors : List MenuItem)
    (hsel : modifiedData.items.find? (fun x => x.id == data.id) = some item)
    (hchain : isParentChain modifiedData.items item ancestors = true)
    (hfuel : ancestors.length + 1 ≤ fuel) :
    ∃ result, scopedFieldsEffect fuel data modifiedData fields = .ok result ∧
      ((item.item_type = some "card" ∨ ancestors.length + 1 = 1 ∨ ancestors.length + 1 = 2) →
        ∀ link, getTab result "link" = some link →
          ∀ f ∈ link, f.input.name ≠ "is_pinned") ∧
      (¬ (item.item_type = some "card" ∨ ancestors.length + 1 = 1 ∨
            ancestors.length + 1 = 2) →
        ∀ base, getTab fields "link" = some base →
          ∃ link, getTab result "link" = some link ∧
            ∀ f ∈ base, f.input.name = "is_pinned" → f ∈ link) := by
  obtain ⟨_, result, _, hrun, _, hlink, _, _⟩ :=
    scopedFieldsEffect_spec fuel data modifiedData fields item (ancestors.length + 1) hsel
      (getItemNestingLevel_chain_one modifiedData.items ancestors item fuel hchain hfuel)
  refine ⟨result, hrun, ?_, ?_⟩
  · intro hcond link hl f hf
    cases hb : getTab fields "link" with
    | none => simp [hlink, hb] at hl
    | some base =>
      simp only [hlink, hb, Option.map_some', Option.some.injEq] at hl
      subst hl
      rcases (mem_scopedLink _ _ _ f).1 hf with h | h
      · rw [h]; decide
      · exact ((mem_keptLink _ _ _ f).1 h).2.1 hcond
  · intro hcond base hb
    refine ⟨_, by rw [hlink, hb]; rfl, ?_⟩
    intro f hf hname
    refine (mem_scopedLink _ _ _ f).2 (Or.inr ((mem_keptLink _ _ _ f).2 ⟨hf, ?_, ?_⟩))
    · intro h; exact absurd h hcond
    · intro _; rw [hname]; decide

/-- Witness for C3: the root link item `A` loses `is_pinned`. -/
theorem C3_is_pinned_filter_witness :
    ∃ result, scopedFieldsEffect 1 linkItemA ⟨[linkItemA]⟩ exampleFields = .ok result ∧
      ((linkItemA.item_type = some "card" ∨ ([] : List MenuItem).length + 1 = 1 ∨
          ([] : List MenuItem).length + 1 = 2) →
        ∀ link, getTab result "link" = some link →
          ∀ f ∈ link, f.input.name ≠ "is_pinned") ∧
      (¬ (linkItemA.item_type = some "card" ∨ ([] : List MenuItem).length + 1 = 1 ∨
            ([] : List MenuItem).length + 1 = 2) →
        ∀ base, getTab exampleFields "link" = some base →
          ∃ link, getTab result "link" = some link ∧
            ∀ f ∈ base, f.input.name = "is_pinned" → f ∈ link) :=
  C3_is_pinned_filter 1 linkItemA ⟨[linkItemA]⟩ exampleFields linkItemA []
    (by decide) (by decide) (by decide)

/-- C4. For a selected item resolved to `item` at nesting level `ancestors.length + 1`:
at level 3 or 4 the scoped `link` tab has no field named `excluded_card_ids`; at every
other level every `excluded_card_ids` field of the base `link` tab is in the scoped
`link` tab. -/
theorem C4_excluded_card_ids_filter (fuel : Nat) (data : MenuItem) (modifiedData : MenuData)
    (fields : FieldSchema) (item : MenuItem) (ancestors : List MenuItem)
    (hsel : modifiedData.items.find? (fun x => x.id == data.id) = some item)
    (hchain : isParentChain modifiedData.items item ancestors = true)
    (hfuel : ancestors.length + 1 ≤ fuel) :
    ∃ result, scopedFieldsEffect fuel data modifiedData fields = .ok result ∧
      ((ancestors.length + 1 = 3 ∨ ancestors.length + 1 = 4) →
        ∀ link, getTab result "link" = some link →
          ∀ f ∈ link, f.input.name ≠ "excluded_card_ids") ∧
      (¬ (ancestors.length + 1 = 3 ∨ ancestors.length + 1 = 4) →
        ∀ base, getTab fields "link" = some base →
          ∃ link, getTab result "link" = some link ∧
            ∀ f ∈ base, f.input.name = "excluded_card_ids" → f ∈ link) := by
  obtain ⟨_, result, _, hrun, _, hlink, _, _⟩ :=
    scopedFieldsEffect_spec fuel data modifiedData fields item (ancestors.length + 1) hsel
      (getItemNestingLevel_chain_one modifiedData.items ancestors item fuel hchain hfuel)
  refine ⟨result, hrun, ?_, ?_⟩
  · intro hcond link hl f hf
    cases hb : getTab fields "link" with
    | none => simp [hlink, hb] at hl
    | some base =>
      simp only [hlink, hb, Option.map_some', Option.some.injEq] at hl
      subst hl
      rcases (mem_scopedLink _ _ _ f).1 hf with h | h
      · rw [h]; decide
      · exact ((mem_keptLink _ _ _ f).1 h).2.2 hcond
  · intro hcond base hb
    refine ⟨_, by rw [hlink, hb]; rfl, ?_⟩
    intro f hf hname
    refine (mem_scopedLink _ _ _ f).2 (Or.inr ((mem_keptLink _ _ _ f).2 ⟨hf, ?_, ?_⟩))
    · intro _; rw [hname]; decide
    · intro h; exact absurd h hcond

/-- Witness for C4: the item `C` at level 3 loses `excluded_card_ids`. -/
theorem C4_excluded_card_ids_filter_witness :
    ∃ result, scopedFieldsEffect 3 itemC ⟨chainItems⟩ exampleFields = .ok result ∧
      (([itemB, itemA].length + 1 = 3 ∨ [itemB, itemA].length + 1 = 4) →
        ∀ link, getTab result "link" = some link →
          ∀ f ∈ link, f.input.name ≠ "excluded_card_ids") ∧
      (¬ ([itemB, itemA].length + 1 = 3 ∨ [itemB, itemA].length + 1 = 4) →
        ∀ base, getTab exampleFields "link" = some base →
          ∃ link, getTab result "link" = some link ∧
            ∀ f ∈ base, f.input.name = "excluded_card_ids" → f ∈ link) :=
  C4_excluded_card_ids_filter 3 itemC ⟨chainItems⟩ exampleFields itemC [itemB, itemA]
    (by decide) (by decide) (by decide)

/-- C5 as stated fails: when the base `link` tab has a field named `id` of its own, the
scoped `link` tab of the root item `A` starts with two fields named `id`, and the field
named `item_type` that it contains is third, not second. (The comparator answers `-1`
for two `id` fields in either order, so which of the two comes first depends on the
sort; both are named `id`, and `item_type` is third either way.) -/
theorem C5_counterexample_second_field_is_id :
    ∃ result link, scopedFieldsEffect 1 linkItemA ⟨[linkItemA]⟩ fieldsWithId = .ok result ∧
      getTab result "link" = some link ∧
      link.map (fun f => f.input.name) = ["id", "id", "item_type"] ∧
      (∃ f ∈ link, f.input.name = "item_type") ∧
      link[1]?.map (fun f => f.input.name) ≠ some "item_type" := by
  refine ⟨_, _, rfl, rfl, ?_, ?_, ?_⟩ <;> decide

/-- C5, amended. When the base `link` tab is an array with no field named `id`, for a
selected item resolved to `item` with a parent chain, the scoped `link` tab is
non-empty, its first field is the injected ID field, and, if the tab contains a field
named `item_type`, its second field is named `item_type`. -/
theorem C5_id_first_item_type_second (fuel : Nat) (data : MenuItem) (modifiedData : MenuData)
    (fields : FieldSchema) (item : MenuItem) (ancestors : List MenuItem)
    (base : List FieldDescriptor)
    (hsel : modifiedData.items.find? (fun x => x.id == data.id) = some item)
    (hchain : isParentChain modifiedData.items item ancestors = true)
    (hfuel : ancestors.length + 1 ≤ fuel)
    (hbase : getTab fields "link" = some base)
    (hnoid : ∀ f ∈ base, f.input.name ≠ "id") :
    ∃ result link, scopedFieldsEffect fuel data modifiedData fields = .ok result ∧
      getTab result "link" = some link ∧
      link ≠ [] ∧
      link.head? = some IDField ∧
      ((∃ f ∈ link, f.input.name = "item_type") →
        ∃ g, link[1]? = some g ∧ g.input.name = "item_type") := by
  obtain ⟨_, result, _, hrun, _, hlink, _, _⟩ :=
    scopedFieldsEffect_spec fuel data modifiedData fields item (ancestors.length + 1) hsel
      (getItemNestingLevel_chain_one modifiedData.items ancestors item fuel hchain hfuel)
  have hsorted := scopedLink_eq item.item_type (ancestors.length + 1) base hnoid
  refine ⟨result,
    arraySort compareFields (IDField :: keptLink item.item_type (ancestors.length + 1) base),
    hrun, by rw [hlink, hbase]; rfl, ?_, ?_, ?_⟩
  · rw [hsorted]; simp
  · rw [hsorted]; rfl
  · rw [hsorted]
    rintro ⟨f, hf, hname⟩
    rcases List.mem_cons.1 hf with h | h
    · rw [h] at hname; exact absurd hname (by decide)
    · rcases List.mem_append.1 h with h | h
      · cases hk : (keptLink item.item_type (ancestors.length + 1) base).filter
            (fun f => f.input.name == "item_type") with
        | nil => rw [hk] at h; simp at h
        | cons g rest =>
          have hg : g ∈ (keptLink item.item_type (ancestors.length + 1) base).filter
              (fun f => f.input.name == "item_type") := by rw [hk]; exact List.mem_cons_self _ _
          refine ⟨g, by simp, ?_⟩
          simpa using (List.mem_filter.1 hg).2
      · have := (List.mem_filter.1 h).2
        simp [hname] at this

/-- Witness for C5 (amended): the root link item `A` with the example schema. -/
theorem C5_id_first_item_type_second_witness :
    ∃ result link, scopedFieldsEffect 1 linkItemA ⟨[linkItemA]⟩ exampleFields = .ok result ∧
      getTab result "link" = some link ∧
      link ≠ [] ∧
      link.head? = some IDField ∧
      ((∃ f ∈ link, f.input.name = "item_type") →
        ∃ g, link[1]? = some g ∧ g.input.name = "item_type") :=
  C5_id_first_item_type_second 1 linkItemA ⟨[linkItemA]⟩ exampleFields linkItemA []
    [textField "title", textField "is_pinned", textField "url", textField "item_type",
      textField "excluded_card_ids"]
    (by decide) (by decide) (by decide) (by decide) (by decide)

/-- C6 as stated fails: selecting the card `C` at level 3, with a base schema that has a
`card` tab and a `link` tab with `is_pinned` and `excluded_card_ids`, leaves a scoped
`link` tab without `is_pinned`. -/
theorem C6_counterexample_is_pinned_removed :
    hasTab exampleFields "card" = true ∧
    (getTab exampleFields "link").map (List.map (fun f => f.input.name))
      = some ["title", "is_pinned", "url", "item_type", "excluded_card_ids"] ∧
    ∃ result link, scopedFieldsEffect 3 itemC ⟨chainItems⟩ exampleFields = .ok result ∧
      getTab result "link" = some link ∧
      link.map (fun f => f.input.name) = ["id", "item_type", "title", "url"] ∧
      ¬ ∃ f ∈ link, f.input.name = "is_pinned" := by
  refine ⟨by decide, by decide, _, _, rfl, rfl, ?_, ?_⟩ <;> decide

/-- C6, amended. For the item collection `[A, B, C]` and every base schema with a `card`
tab and a `link` tab: selecting `C` gives nesting level 3, and the scoped schema keeps
the `card` tab unchanged and has neither `excluded_card_ids` (level 3) nor `is_pinned`
(`C` is a card) in its `link` tab. -/
theorem C6_card_at_level_three (fuel : Nat) (fields : FieldSchema)
    (base : List FieldDescriptor)
    (hfuel : 3 ≤ fuel)
    (hcard : hasTab fields "card" = true)
    (hbase : getTab fields "link" = some base) :
    getItemNestingLevel fuel chainItems itemC 1 = .ok 3 ∧
    ∃ result link, scopedFieldsEffect fuel itemC ⟨chainItems⟩ fields = .ok result ∧
      hasTab result "card" = true ∧
      getTab result "card" = getTab fields "card" ∧
      getTab result "link" = some link ∧
      (∀ f ∈ link, f.input.name ≠ "excluded_card_ids") ∧
      (∀ f ∈ link, f.input.name ≠ "is_pinned") := by
  have hlevel : getItemNestingLevel fuel chainItems itemC 1 = .ok 3 :=
    getItemNestingLevel_chain_one chainItems [itemB, itemA] itemC fuel (by decide) hfuel
  obtain ⟨_, result, _, hrun, _, hlink, hcardr, _⟩ :=
    scopedFieldsEffect_spec fuel itemC ⟨chainItems⟩ fields itemC 3 (by decide) hlevel
  have hc : getTab result "card" = getTab fields "card" := by
    rw [hcardr]; rfl
  refine ⟨hlevel, result, _, hrun, ?_, hc, by rw [hlink, hbase]; rfl, ?_, ?_⟩
  · unfold hasTab at hcard ⊢
    rw [hc]; exact hcard
  · intro f hf
    rcases (mem_scopedLink _ _ _ f).1 hf with h | h
    · rw [h]; decide
    · exact ((mem_keptLink _ _ _ f).1 h).2.2 (Or.inl rfl)
  · intro f hf
    rcases (mem_scopedLink _ _ _ f).1 hf with h | h
    · rw [h]; decide
    · exact ((mem_keptLink _ _ _ f).1 h).2.1 (Or.inl rfl)

/-- Witness for C6 (amended) on the example schema. -/
theorem C6_card_at_level_three_witness :
    getItemNestingLevel 3 chainItems itemC 1 = .ok 3 ∧
    ∃ result link, scopedFieldsEffect 3 itemC ⟨chainItems⟩ exampleFields = .ok result ∧
      hasTab result "card" = true ∧
      getTab result "card" = getTab exampleFields "card" ∧
      getTab result "link" = some link ∧
      (∀ f ∈ link, f.input.name ≠ "excluded_card_ids") ∧
      (∀ f ∈ link, f.input.name ≠ "is_pinned") :=
  C6_card_at_level_three 3 exampleFields
    [textField "title", textField "is_pinned", textField "url", textField "item_type",
      textField "excluded_card_ids"]
    (by decide) (by decide) (by decide)

/-- C7 fails on the code. For the selected item `{ id: 'X' }`, which the collection `[A]`
does not contain, `findIndex` gives `-1`, the guard `! itemIndex && itemIndex !== 0` does
not fire, the component returns the tabbed form instead of `null`, and the effect throws
a `TypeError` when `handleCardFieldsDisplay` destructures the missing item. -/
theorem C7_missing_item_renders_form_and_effect_throws (fuel : Nat) (fields : FieldSchema)
    (errors : Option MenuErrors) (scopedFields : FieldSchema) :
    findIndex (fun item => item.id == missingItem.id) [itemA] = -1 ∧
    EditMenuItem fuel missingItem fields errors ⟨[itemA]⟩ scopedFields ≠ .null ∧
    ∃ tabs, EditMenuItem fuel missingItem fields errors ⟨[itemA]⟩ scopedFields
      = .form tabs (.error .typeError) := by
  have hidx : findIndex (fun item => item.id == missingItem.id) [itemA] = -1 := by decide
  have hguard : (!numberTruthy (-1) && (-1 : Int) != 0) = false := by decide
  have heff : scopedFieldsEffect fuel missingItem ⟨[itemA]⟩ fields = .error .typeError := by
    have hnone : (List.filter (fun item => item.id == missingItem.id) [itemA]).head? = none := by
      decide
    simp only [scopedFieldsEffect, filteredFields, handleCardFieldsDisplay, hnone, bind,
      Except.bind]
  have hform : ∃ tabs, EditMenuItem fuel missingItem fields errors ⟨[itemA]⟩ scopedFields
      = .form tabs (.error .typeError) := by
    simp only [EditMenuItem, hidx, hguard, heff]
    exact ⟨_, rfl⟩
  refine ⟨hidx, ?_, hform⟩
  obtain ⟨tabs, h⟩ := hform
  rw [h]
  exact fun hne => Rendered.noConfusion hne

/-- C8. For a tab `key` of the base schema, `hasTabError(key)` returns, and returns `true`
if and only if the item has an error entry one of whose keys is the `input.name` of a
field of that tab. With the entry `{ title: ... }` it is `true` exactly for a tab with a
field named `title`; with no entry it is `false`. -/
theorem C8_hasTabError_iff (fields : FieldSchema) (errors : Option MenuErrors)
    (itemIndex : Int) (key : String) (tab : List FieldDescriptor)
    (hkey : getTab fields key = some tab) :
    ∃ hasError, hasTabError fields errors itemIndex key = .ok hasError ∧
      (hasError = true ↔
        ∃ entry, itemErrorEntry errors itemIndex = some entry ∧
          ∃ name ∈ entry.map Prod.fst, ∃ f ∈ tab, f.input.name = name) ∧
      (∀ message, itemErrorEntry errors itemIndex = some [("title", message)] →
        (hasError = true ↔ ∃ f ∈ tab, f.input.name = "title")) ∧
      (itemErrorEntry errors itemIndex = none → hasError = false) := by
  have hgen : ∃ hasError, hasTabError fields errors itemIndex key = .ok hasError ∧
      (hasError = true ↔
        ∃ entry, itemErrorEntry errors itemIndex = some entry ∧
          ∃ name ∈ entry.map Prod.fst, ∃ f ∈ tab, f.input.name = name) := by
    cases hentry : itemErrorEntry errors itemIndex with
    | none => exact ⟨false, by simp [hasTabError, hentry], by simp⟩
    | some entry =>
      refine ⟨(entry.map Prod.fst).any
          (fun name => (tab.map (fun field => field.input.name)).contains name),
        by simp only [hasTabError, hentry, hkey], ?_⟩
      have hcontains : ∀ name : String,
          (tab.map (fun field => field.input.name)).contains name = true ↔
            ∃ f ∈ tab, f.input.name = name := by
        intro name
        rw [List.contains_iff_exists_mem_beq]
        constructor
        · rintro ⟨n, hn, hbeq⟩
          obtain ⟨f, hf, rfl⟩ := List.mem_map.1 hn
          exact ⟨f, hf, (beq_iff_eq.1 hbeq).symm⟩
        · rintro ⟨f, hf, hname⟩
          exact ⟨f.input.name, List.mem_map.2 ⟨f, hf, rfl⟩, beq_iff_eq.2 hname.symm⟩
      rw [List.any_eq_true]
      constructor
      · rintro ⟨name, hn, hc⟩
        exact ⟨entry, rfl, name, hn, (hcontains name).1 hc⟩
      · rintro ⟨entry2, he, name, hn, hf⟩
        cases he
        exact ⟨name, hn, (hcontains name).2 hf⟩
  obtain ⟨hasError, hrun, hiff⟩ := hgen
  refine ⟨hasError, hrun, hiff, ?_, ?_⟩
  · intro message hentry
    rw [hiff, hentry]
    simp
  · intro hentry
    cases hb : hasError with
    | false => rfl
    | true =>
      obtain ⟨entry, he, _⟩ := hiff.1 hb
      rw [hentry] at he
      exact absurd he (by simp)

/-- Witness for C8: an error on `title` for the item at index 1 flags the `link` tab of
the example schema. -/
theorem C8_hasTabError_iff_witness :
    ∃ hasError,
      hasTabError exampleFields exampleErrors 1 "link" = .ok hasError ∧
      (hasError = true ↔
        ∃ entry, itemErrorEntry exampleErrors 1 = some entry ∧
          ∃ name ∈ entry.map Prod.fst,
            ∃ f ∈ [textField "title", textField "is_pinned", textField "url",
                textField "item_type", textField "excluded_card_ids"], f.input.name = name) ∧
      (∀ message, itemErrorEntry exampleErrors 1 = some [("title", message)] →
        (hasError = true ↔
          ∃ f ∈ [textField "title", textField "is_pinned", textField "url",
              textField "item_type", textField "excluded_card_ids"],
            f.input.name = "title")) ∧
      (itemErrorEntry exampleErrors 1 = none → hasError = false) :=
  C8_hasTabError_iff exampleFields exampleErrors 1 "link" _ (by decide)

/-- C9. For the item collection `[A]` with `A = { id: 'A', item_type: 'link', parent:
null }` selected and every base schema with an array `link` tab, the scoped schema has
no `card` tab and its `link` tab consists of exactly the injected ID field and the base
`link` fields not named `is_pinned` (this holds whether or not the base tab has a field
named `id`). -/
theorem C9_root_link_item (fuel : Nat) (fields : FieldSchema) (base : List FieldDescriptor)
    (hfuel : 1 ≤ fuel)
    (hbase : getTab fields "link" = some base) :
    ∃ result link, scopedFieldsEffect fuel linkItemA ⟨[linkItemA]⟩ fields = .ok result ∧
      hasTab result "card" = false ∧
      getTab result "link" = some link ∧
      link.Perm (IDField :: base.filter (fun f => f.input.name != "is_pinned")) := by
  have hlevel : getItemNestingLevel fuel [linkItemA] linkItemA 1 = .ok 1 :=
    getItemNestingLevel_chain_one [linkItemA] [] linkItemA fuel (by decide) hfuel
  obtain ⟨_, result, _, hrun, _, hlink, hcard, _⟩ :=
    scopedFieldsEffect_spec fuel linkItemA ⟨[linkItemA]⟩ fields linkItemA 1 (by decide) hlevel
  have hkept : keptLink linkItemA.item_type 1 base
      = base.filter (fun f => f.input.name != "is_pinned") := by
    have h1 : (linkItemA.item_type == some "card" || 1 == 1 || 1 == 2) = true := by decide
    have h2 : ¬ ((1 == 3 || 1 == 4) = true) := by decide
    unfold keptLink pinnedKept
    rw [if_neg h2, if_pos h1]
  refine ⟨result, arraySort compareFields (IDField :: keptLink linkItemA.item_type 1 base),
    hrun, ?_, by rw [hlink, hbase]; rfl, ?_⟩
  · have hc : (linkItemA.item_type != some "card" || 1 == 4) = true := by decide
    unfold hasTab
    rw [hcard, if_pos hc]
    rfl
  · rw [← hkept]
    exact arraySort_perm compareFields _

/-- Witness for C9 on the example schema. -/
theorem C9_root_link_item_witness :
    ∃ result link, scopedFieldsEffect 1 linkItemA ⟨[linkItemA]⟩ exampleFields = .ok result ∧
      hasTab result "card" = false ∧
      getTab result "link" = some link ∧
      link.Perm (IDField ::
        [textField "title", textField "is_pinned", textField "url", textField "item_type",
          textField "excluded_card_ids"].filter (fun f => f.input.name != "is_pinned")) :=
  C9_root_link_item 1 exampleFields
    [textField "title", textField "is_pinned", textField "url", textField "item_type",
      textField "excluded_card_ids"]
    (by decide) (by decide)

/-- C10. When the base `link` tab has no field named `id`, for a selected item resolved
to `item` with a parent chain, the reorder is a stable rearrangement: the scoped `link`
tab is a permutation of the filtered list that `prioritizeItemTypeInput` is applied to,
and its fields named neither `id` nor `item_type` are, in the same order, those of the
filtered list, so that they appear in the order they have in the base `link` tab. -/
theorem C10_reorder_is_stable (fuel : Nat) (data : MenuItem) (modifiedData : MenuData)
    (fields : FieldSchema) (item : MenuItem) (ancestors : List MenuItem)
    (base : List FieldDescriptor)
    (hsel : modifiedData.items.find? (fun x => x.id == data.id) = some item)
    (hchain : isParentChain modifiedData.items item ancestors = true)
    (hfuel : ancestors.length + 1 ≤ fuel)
    (hbase : getTab fields "link" = some base)
    (hnoid : ∀ f ∈ base, f.input.name ≠ "id") :
    ∃ filtered result filteredLink link,
      filteredFields fuel data modifiedData fields = .ok filtered ∧
      scopedFieldsEffect fuel data modifiedData fields = .ok result ∧
      getTab filtered "link" = some filteredLink ∧
      getTab result "link" = some link ∧
      link.Perm filteredLink ∧
      link.filter (fun f => f.input.name != "id" && f.input.name != "item_type")
        = filteredLink.filter
            (fun f => f.input.name != "id" && f.input.name != "item_type") ∧
      (link.filter (fun f => f.input.name != "id" && f.input.name != "item_type")).Sublist
        base := by
  obtain ⟨filtered, result, hfil, hrun, hflink, hlink, _, _⟩ :=
    scopedFieldsEffect_spec fuel data modifiedData fields item (ancestors.length + 1) hsel
      (getItemNestingLevel_chain_one modifiedData.items ancestors item fuel hchain hfuel)
  have hsorted := scopedLink_eq item.item_type (ancestors.length + 1) base hnoid
  have hK : ∀ f ∈ keptLink item.item_type (ancestors.length + 1) base, f.input.name ≠ "id" :=
    fun f hf => hnoid f ((keptLink_sublist item.item_type (ancestors.length + 1) base).subset hf)
  have hid : (IDField.input.name != "id" && IDField.input.name != "item_type") = false := by
    decide
  -- the fields named neither `id` nor `item_type`, before and after the sort
  have hbefore : (IDField :: keptLink item.item_type (ancestors.length + 1) base).filter
        (fun f => f.input.name != "id" && f.input.name != "item_type")
      = (keptLink item.item_type (ancestors.length + 1) base).filter
        (fun f => f.input.name != "item_type") := by
    rw [List.filter_cons_of_neg (by simp [hid])]
    apply List.filter_congr
    intro f hf
    have := hK f hf
    simp [this]
  have hafter : (arraySort compareFields
        (IDField :: keptLink item.item_type (ancestors.length + 1) base)).filter
        (fun f => f.input.name != "id" && f.input.name != "item_type")
      = (keptLink item.item_type (ancestors.length + 1) base).filter
        (fun f => f.input.name != "item_type") := by
    rw [hsorted, List.filter_cons_of_neg (by simp [hid]), List.filter_append,
      List.filter_filter, List.filter_filter]
    have h1 : (keptLink item.item_type (ancestors.length + 1) base).filter
        (fun f => (f.input.name != "id" && f.input.name != "item_type")
          && f.input.name == "item_type") = [] := by
      rw [List.filter_eq_nil_iff]
      intro f _
      by_cases h : f.input.name = "item_type" <;> simp [h]
    have h2 : (keptLink item.item_type (ancestors.length + 1) base).filter
        (fun f => (f.input.name != "id" && f.input.name != "item_type")
          && f.input.name != "item_type")
        = (keptLink item.item_type (ancestors.length + 1) base).filter
          (fun f => f.input.name != "item_type") := by
      apply List.filter_congr
      intro f hf
      have := hK f hf
      by_cases h : f.input.name = "item_type" <;> simp [h, this]
    rw [h1, h2, List.nil_append]
  refine ⟨filtered, result,
    IDField :: keptLink item.item_type (ancestors.length + 1) base,
    arraySort compareFields (IDField :: keptLink item.item_type (ancestors.length + 1) base),
    hfil, hrun, by rw [hflink, hbase]; rfl, by rw [hlink, hbase]; rfl,
    arraySort_perm compareFields _, ?_, ?_⟩
  · rw [hafter, hbefore]
  · rw [hafter]
    exact (List.filter_sublist _).trans
      (keptLink_sublist item.item_type (ancestors.length + 1) base)

/-- Witness for C10: the item `B` at level 2 with the example schema. -/
theorem C10_reorder_is_stable_witness :
    ∃ filtered result filteredLink link,
      filteredFields 2 itemB ⟨chainItems⟩ exampleFields = .ok filtered ∧
      scopedFieldsEffect 2 itemB ⟨chainItems⟩ exampleFields = .ok result ∧
      getTab filtered "link" = some filteredLink ∧
      getTab result "link" = some link ∧
      link.Perm filteredLink ∧
      link.filter (fun f => f.input.name != "id" && f.input.name != "item_type")
        = filteredLink.filter
            (fun f => f.input.name != "id" && f.input.name != "item_type") ∧
      (link.filter (fun f => f.input.name != "id" && f.input.name != "item_type")).Sublist
        [textField "title", textField "is_pinned", textField "url", textField "item_type",
          textField "excluded_card_ids"] :=
  C10_reorder_is_stable 2 itemB ⟨chainItems⟩ exampleFields itemB [itemA]
    [textField "title", textField "is_pinned", textField "url", textField "item_type",
      textField "excluded_card_ids"]
    (by decide) (by decide) (by decide) (by decide) (by decide)

/-- C11. For a selected item resolved to `item` at nesting level `ancestors.length + 1`,
the effect changes only the `link` and `card` tabs: the tab keys of the scoped schema are
those of the base schema in the same order, minus `card` when the card-tab filter removes
it; every tab other than `link` and `card` is the base tab; the `card` tab is either
removed or the base tab; and there is no `link` tab when the base schema has none. -/
theorem C11_only_link_and_card_change (fuel : Nat) (data : MenuItem) (modifiedData : MenuData)
    (fields : FieldSchema) (item : MenuItem) (ancestors : List MenuItem)
    (hsel : modifiedData.items.find? (fun x => x.id == data.id) = some item)
    (hchain : isParentChain modifiedData.items item ancestors = true)
    (hfuel : ancestors.length + 1 ≤ fuel) :
    ∃ result, scopedFieldsEffect fuel data modifiedData fields = .ok result ∧
      tabKeys result
        = (if item.item_type != some "card" || ancestors.length + 1 == 4 then
            (tabKeys fields).filter (fun key => key != "card") else tabKeys fields) ∧
      (∀ key, key ≠ "link" → key ≠ "card" → getTab result key = getTab fields key) ∧
      getTab result "card"
        = (if item.item_type != some "card" || ancestors.length + 1 == 4 then none
           else getTab fields "card") ∧
      (getTab fields "link" = none → getTab result "link" = none) := by
  have hlevel :=
    getItemNestingLevel_chain_one modifiedData.items ancestors item fuel hchain hfuel
  obtain ⟨_, result, _, hrun, _, hlink, hcard, hother⟩ :=
    scopedFieldsEffect_spec fuel data modifiedData fields item (ancestors.length + 1) hsel
      hlevel
  have heq := scopedFieldsEffect_eq fuel data modifiedData fields item
    (ancestors.length + 1) hsel hlevel
  rw [hrun, Except.ok.injEq] at heq
  refine ⟨result, hrun, ?_, hother, hcard, ?_⟩
  · rw [heq, tabKeys_updateLink, tabKeys_exclStep, tabKeys_pinStep, tabKeys_cardStep,
      tabKeys_updateLink]
  · intro hnone
    rw [hlink, hnone]
    rfl

/-- Witness for C11: the link item `B` at level 2 with the example schema. -/
theorem C11_only_link_and_card_change_witness :
    ∃ result, scopedFieldsEffect 2 itemB ⟨chainItems⟩ exampleFields = .ok result ∧
      tabKeys result
        = (if itemB.item_type != some "card" || [itemA].length + 1 == 4 then
            (tabKeys exampleFields).filter (fun key => key != "card")
           else tabKeys exampleFields) ∧
      (∀ key, key ≠ "link" → key ≠ "card" → getTab result key = getTab exampleFields key) ∧
      getTab result "card"
        = (if itemB.item_type != some "card" || [itemA].length + 1 == 4 then none
           else getTab exampleFields "card") ∧
      (getTab exampleFields "link" = none → getTab result "link" = none) :=
  C11_only_link_and_card_change 2 itemB ⟨chainItems⟩ exampleFields itemB [itemA]
    (by decide) (by decide) (by decide)

/-- C12. The effect works on a deep copy: run on a store `h₀` in which the prop `fields`
refers to the base schema, it leaves a store `h₁` in which `fields` reads as before, and
its result reads as the value computed from the base schema; run a second time, on `h₁`,
it again leaves the base schema as it was before the first run, and the two results,
read side by side after the second run, are equal (or the two runs throw the same
error). -/
theorem C12_effect_works_on_a_copy (fuel : Nat) (data : MenuItem) (modifiedData : MenuData)
    (h₀ h₁ h₂ : Heap) (fields : Nat) (result₁ result₂ : Except JsError Nat)
    (hwf : isSchemaRef h₀ fields = true)
    (hrun₁ : scopedFieldsEffectH fuel data modifiedData h₀ fields = (h₁, result₁))
    (hrun₂ : scopedFieldsEffectH fuel data modifiedData h₁ fields = (h₂, result₂)) :
    schemaAt h₁ fields = schemaAt h₀ fields ∧
    schemaAt h₂ fields = schemaAt h₀ fields ∧
    result₁.map (schemaAt h₁)
      = scopedFieldsEffect fuel data modifiedData (schemaAt h₀ fields) ∧
    result₂.map (schemaAt h₂) = result₁.map (schemaAt h₁) ∧
    result₁.map (schemaAt h₂) = result₁.map (schemaAt h₁) := by
  obtain ⟨hpa₁, hpo₁, hval₁, hvalid₁⟩ :=
    scopedFieldsEffectH_spec fuel data modifiedData h₀ fields hwf
  rw [hrun₁] at hpa₁ hpo₁ hval₁ hvalid₁
  obtain ⟨hbase₁, hwf₁⟩ := schemaAt_of_prefix h₀ h₁ fields hwf hpa₁ hpo₁
  obtain ⟨hpa₂, hpo₂, hval₂, _⟩ :=
    scopedFieldsEffectH_spec fuel data modifiedData h₁ fields hwf₁
  rw [hrun₂] at hpa₂ hpo₂ hval₂
  obtain ⟨hbase₂, _⟩ := schemaAt_of_prefix h₁ h₂ fields hwf₁ hpa₂ hpo₂
  refine ⟨hbase₁, hbase₂.trans hbase₁, hval₁, ?_, ?_⟩
  · rw [hval₂, hval₁, hbase₁]
  · cases result₁ with
    | error e => rfl
    | ok c =>
      obtain ⟨hlt, hrefs⟩ := hvalid₁ c rfl
      have := (schemaAt_of_prefix_valid h₁ h₂ c hlt hrefs hpa₂ hpo₂).2
      simp only [Except.map, this]

/-- Witness for C12: two runs for the card `C` on the store of the example schema. -/
theorem C12_effect_works_on_a_copy_witness :
    schemaAt (scopedFieldsEffectH 3 itemC ⟨chainItems⟩ exampleHeap 0).1 0
      = schemaAt exampleHeap 0 ∧
    schemaAt (scopedFieldsEffectH 3 itemC ⟨chainItems⟩
        (scopedFieldsEffectH 3 itemC ⟨chainItems⟩ exampleHeap 0).1 0).1 0
      = schemaAt exampleHeap 0 ∧
    (scopedFieldsEffectH 3 itemC ⟨chainItems⟩ exampleHeap 0).2.map
        (schemaAt (scopedFieldsEffectH 3 itemC ⟨chainItems⟩ exampleHeap 0).1)
      = scopedFieldsEffect 3 itemC ⟨chainItems⟩ (schemaAt exampleHeap 0) ∧
    (scopedFieldsEffectH 3 itemC ⟨chainItems⟩
        (scopedFieldsEffectH 3 itemC ⟨chainItems⟩ exampleHeap 0).1 0).2.map
        (schemaAt (scopedFieldsEffectH 3 itemC ⟨chainItems⟩
          (scopedFieldsEffectH 3 itemC ⟨chainItems⟩ exampleHeap 0).1 0).1)
      = (scopedFieldsEffectH 3 itemC ⟨chainItems⟩ exampleHeap 0).2.map
          (schemaAt (scopedFieldsEffectH 3 itemC ⟨chainItems⟩ exampleHeap 0).1) ∧
    (scopedFieldsEffectH 3 itemC ⟨chainItems⟩ exampleHeap 0).2.map
        (schemaAt (scopedFieldsEffectH 3 itemC ⟨chainItems⟩
          (scopedFieldsEffectH 3 itemC ⟨chainItems⟩ exampleHeap 0).1 0).1)
      = (scopedFieldsEffectH 3 itemC ⟨chainItems⟩ exampleHeap 0).2.map
          (schemaAt (scopedFieldsEffectH 3 itemC ⟨chainItems⟩ exampleHeap 0).1) :=
  C12_effect_works_on_a_copy 3 itemC ⟨chainItems⟩ exampleHeap _ _ 0 _ _ (by decide) rfl rfl

/-- C13. Whatever the props and the local state, `actions` has exactly six entries, in
the order Add submenu, Move down, Move up, Delete, Show children, Hide children (by
icon, `onClick` and, with the default messages, label); Add submenu is hidden iff
`isMaxDepth`, Move down iff `isLast`, Move up iff `isFirst`, and Delete never. -/
theorem C13_six_actions_in_order (getTrad : String → String)
    (formatMessage : IntlMessage → String) (props : TreeMenuItemProps) (isOpen : Bool) :
    (actions getTrad formatMessage props isOpen).length = 6 ∧
    (actions getTrad formatMessage props isOpen).map (fun a => (a.icon, a.onClick))
      = [(.Plus, .onAddSubmenu), (.ArrowDown, .onMoveDown), (.ArrowUp, .onMoveUp),
         (.Trash, .onDelete), (.ChevronRight, .setIsOpen true),
         (.ChevronDown, .setIsOpen false)] ∧
    (actions getTrad (fun message => message.defaultMessage) props isOpen).map
        (fun a => a.label)
      = ["Add submenu", "Move item down", "Move item up", "Delete menu item",
         "Show children", "Hide children"] ∧
    (actions getTrad formatMessage props isOpen).map (fun a => a.hidden)
      = [props.isMaxDepth, props.isLast, props.isFirst, false, isOpen, !isOpen] := by
  refine ⟨rfl, rfl, rfl, rfl⟩

/-- C14. In every state exactly one of the actions Show children and Hide children is
visible: Show children iff the node is collapsed, Hide children iff it is expanded. -/
theorem C14_show_hide_exclusive (getTrad : String → String)
    (formatMessage : IntlMessage → String) (props : TreeMenuItemProps) (isOpen : Bool) :
    ∃ showChildren hideChildren,
      (actions getTrad formatMessage props isOpen).get? 4 = some showChildren ∧
      (actions getTrad formatMessage props isOpen).get? 5 = some hideChildren ∧
      showChildren.label = "Show children" ∧ hideChildren.label = "Hide children" ∧
      (showChildren.hidden = false ↔ isOpen = false) ∧
      (hideChildren.hidden = false ↔ isOpen = true) ∧
      (showChildren.hidden = false ↔ hideChildren.hidden = true) := by
  refine ⟨_, _, rfl, rfl, rfl, rfl, ?_, ?_, ?_⟩ <;> cases isOpen <;> simp

/-- C15. The local state starts as expanded; an event changes it only if it is the
click on Show children (index 4), which sets it to expanded, or on Hide children (index
5), which sets it to collapsed; in every state the children are rendered iff the state
is expanded; and the props never affect it: the state after any sequence of events is
the state after its clicks alone, from any initial props. -/
theorem C15_expand_state (getTrad : String → String) (formatMessage : IntlMessage → String) :
    (∀ props, (mountTreeMenuItem props).isOpen = true) ∧
    (∀ node event, (stepTree getTrad formatMessage node event).isOpen ≠ node.isOpen →
      (event = .click 4 ∧ (stepTree getTrad formatMessage node event).isOpen = true) ∨
      (event = .click 5 ∧ (stepTree getTrad formatMessage node event).isOpen = false)) ∧
    (∀ node, (stepTree getTrad formatMessage node (.click 4)).isOpen = true ∧
      (stepTree getTrad formatMessage node (.click 5)).isOpen = false) ∧
    (∀ props isOpen,
      (TreeMenuItem getTrad formatMessage props isOpen).childrenRendered = isOpen) ∧
    (∀ node props, (stepTree getTrad formatMessage node (.newProps props)).isOpen
      = node.isOpen) ∧
    (∀ props₁ props₂ events,
      (runTree getTrad formatMessage props₁ events).isOpen
        = (runTree getTrad formatMessage props₂
            (events.filter TreeEvent.isClick)).isOpen) := by
  refine ⟨fun _ => rfl, ?_, fun _ => ⟨rfl, rfl⟩, fun _ _ => rfl, fun _ _ => rfl, ?_⟩
  · intro node event hne
    cases event with
    | newProps props => exact absurd rfl hne
    | click index =>
      match index with
      | 0 | 1 | 2 | 3 => exact absurd rfl hne
      | 4 => exact Or.inl ⟨rfl, rfl⟩
      | 5 => exact Or.inr ⟨rfl, rfl⟩
      | n + 6 => exact absurd rfl hne
  · intro props₁ props₂ events
    unfold runTree
    exact stepTree_isOpen_foldl getTrad formatMessage events
      (mountTreeMenuItem props₁) (mountTreeMenuItem props₂) rfl

/-- C16. `getItemNestingLevel` does not guard against a dangling parent reference. If
the chain from `item` reaches an item whose `parent.id` matches no item, the call throws
(with any fuel that reaches that item) instead of returning a level; and whenever the
walk ends within the fuel (the chain is acyclic), the call throws if and only if the
chain reaches such an item. -/
theorem C16_dangling_parent_throws (items : List MenuItem) (item : MenuItem) :
    (∀ (ancestors : List MenuItem) (fuel : Nat),
        isDanglingChain items item ancestors = true → ancestors.length + 1 ≤ fuel →
        getItemNestingLevel fuel items item 1 = .error .typeError) ∧
    (∀ fuel : Nat, getItemNestingLevel fuel items item 1 ≠ .error .fuelExhausted →
        (getItemNestingLevel fuel items item 1 = .error .typeError ↔
          ∃ ancestors, isDanglingChain items item ancestors = true)) := by
  refine ⟨fun ancestors fuel h hf =>
    getItemNestingLevel_of_dangling items ancestors item fuel 1 h hf, ?_⟩
  intro fuel hne
  constructor
  · intro h
    obtain ⟨ancestors, _, hd⟩ := dangling_of_typeError items fuel item 1 h
    exact ⟨ancestors, hd⟩
  · rintro ⟨ancestors, hd⟩
    cases hres : getItemNestingLevel fuel items item 1 with
    | error e =>
      cases e with
      | typeError => rfl
      | fuelExhausted => exact absurd hres hne
    | ok level =>
      obtain ⟨chain, _, hchain, _⟩ := chain_of_ok items fuel item 1 level hres
      have h1 := getItemNestingLevel_of_dangling items ancestors item
        (ancestors.length + 1 + (chain.length + 1)) 1 hd (by omega)
      have h2 := getItemNestingLevel_of_chain items chain item
        (ancestors.length + 1 + (chain.length + 1)) 1 hchain (by omega)
      rw [h1] at h2
      exact absurd h2 (by simp)

/-- Witness for C16: in the collection `[B, C]` the parent `A` of `B` is missing, and the
walk from `C` throws. -/
theorem C16_dangling_parent_throws_witness :
    isDanglingChain [itemB, itemC] itemC [itemB] = true ∧
    getItemNestingLevel 2 [itemB, itemC] itemC 1 = .error .typeError :=
  ⟨by decide,
   (C16_dangling_parent_throws [itemB, itemC] itemC).1 [itemB] 2 (by decide) (by decide)⟩

/-- C17. The tab error indicator is computed from the base schema `fields`: every render
passes `fields`, not the scoped schema, to `hasTabError`. So, for an item with the error
entry `entry`, `hasTabError('link')` is `true` as soon as the entry names a field of the
base `link` tab, also when the effect has removed that field from the scoped `link` tab
(as it removes `is_pinned` for a card or at level 1 or 2); and with an error keyed `id`
alone it is `true` only if the base `link` tab has a field named `id`. -/
theorem C17_tab_error_uses_base_schema (fields : FieldSchema) (errors : Option MenuErrors)
    (itemIndex : Int) (base : List FieldDescriptor) (entry : ErrorEntry)
    (hbase : getTab fields "link" = some base)
    (hentry : itemErrorEntry errors itemIndex = some entry) :
    (∀ (fuel : Nat) (data : MenuItem) (modifiedData : MenuData) (scopedFields : FieldSchema),
      EditMenuItem fuel data fields errors modifiedData scopedFields
        = .form
            ((tabKeys scopedFields).mapM (fun key =>
              (hasTabError fields errors
                (findIndex (fun item => item.id == data.id) modifiedData.items) key).map
                (fun hasError => (key, hasError))))
            (scopedFieldsEffect fuel data modifiedData fields)) ∧
    ((∃ name ∈ entry.map Prod.fst, ∃ f ∈ base, f.input.name = name) →
      hasTabError fields errors itemIndex "link" = .ok true) ∧
    (entry.map Prod.fst = ["id"] →
      (hasTabError fields errors itemIndex "link" = .ok true ↔
        ∃ f ∈ base, f.input.name = "id")) ∧
    (∀ (fuel : Nat) (data : MenuItem) (modifiedData : MenuData) (item : MenuItem)
        (ancestors : List MenuItem),
      modifiedData.items.find? (fun x => x.id == data.id) = some item →
      isParentChain modifiedData.items item ancestors = true →
      ancestors.length + 1 ≤ fuel →
      (item.item_type = some "card" ∨ ancestors.length + 1 = 1 ∨ ancestors.length + 1 = 2) →
      "is_pinned" ∈ entry.map Prod.fst →
      (∃ f ∈ base, f.input.name = "is_pinned") →
      ∃ result link, scopedFieldsEffect fuel data modifiedData fields = .ok result ∧
        getTab result "link" = some link ∧
        (∀ f ∈ link, f.input.name ≠ "is_pinned") ∧
        hasTabError fields errors itemIndex "link" = .ok true) := by
  have hvalue : hasTabError fields errors itemIndex "link"
      = .ok ((entry.map Prod.fst).any
          (fun name => (base.map (fun field => field.input.name)).contains name)) := by
    simp only [hasTabError, hentry, hbase]
  have hcontains : ∀ name : String,
      (base.map (fun field => field.input.name)).contains name = true ↔
        ∃ f ∈ base, f.input.name = name := by
    intro name
    rw [List.contains_iff_exists_mem_beq]
    constructor
    · rintro ⟨n, hn, hbeq⟩
      obtain ⟨f, hf, rfl⟩ := List.mem_map.1 hn
      exact ⟨f, hf, (beq_iff_eq.1 hbeq).symm⟩
    · rintro ⟨f, hf, hname⟩
      exact ⟨f.input.name, List.mem_map.2 ⟨f, hf, rfl⟩, beq_iff_eq.2 hname.symm⟩
  have htrue : (∃ name ∈ entry.map Prod.fst, ∃ f ∈ base, f.input.name = name) →
      hasTabError fields errors itemIndex "link" = .ok true := by
    rintro ⟨name, hn, hf⟩
    rw [hvalue]
    congr 1
    exact List.any_eq_true.2 ⟨name, hn, (hcontains name).2 hf⟩
  refine ⟨?_, htrue, ?_, ?_⟩
  · intro fuel data modifiedData scopedFields
    have hguard : ∀ n : Int, (!numberTruthy n && n != 0) = false := by
      intro n
      by_cases h : n = 0 <;> simp [numberTruthy, h]
    simp only [EditMenuItem, hguard]
    rfl
  · intro hkeys
    rw [hvalue, hkeys]
    simp only [List.any_cons, List.any_nil, Bool.or_false, Except.ok.injEq]
    exact hcontains "id"
  · intro fuel data modifiedData item ancestors hsel hchain hfuel hcond hkey hfield
    obtain ⟨_, result, _, hrun, _, hlink, _, _⟩ :=
      scopedFieldsEffect_spec fuel data modifiedData fields item (ancestors.length + 1) hsel
        (getItemNestingLevel_chain_one modifiedData.items ancestors item fuel hchain hfuel)
    refine ⟨result,
      arraySort compareFields (IDField :: keptLink item.item_type (ancestors.length + 1) base),
      hrun, by rw [hlink, hbase]; rfl, ?_, htrue ⟨"is_pinned", hkey, hfield⟩⟩
    intro f hf
    rcases (mem_scopedLink _ _ _ f).1 hf with h | h
    · rw [h]; decide
    · exact ((mem_keptLink _ _ _ f).1 h).2.1 hcond

/-- Witness for C17: the root link item `A` with an error on `is_pinned`. -/
theorem C17_tab_error_uses_base_schema_witness :
    hasTabError exampleFields (some ⟨some [some [("is_pinned", "invalid")]]⟩) 0 "link"
      = .ok true ∧
    ∃ result link, scopedFieldsEffect 1 linkItemA ⟨[linkItemA]⟩ exampleFields = .ok result ∧
      getTab result "link" = some link ∧
      (∀ f ∈ link, f.input.name ≠ "is_pinned") ∧
      hasTabError exampleFields (some ⟨some [some [("is_pinned", "invalid")]]⟩) 0 "link"
        = .ok true :=
  ⟨(C17_tab_error_uses_base_schema exampleFields
      (some ⟨some [some [("is_pinned", "invalid")]]⟩) 0
      [textField "title", textField "is_pinned", textField "url", textField "item_type",
        textField "excluded_card_ids"]
      [("is_pinned", "invalid")] (by decide) (by decide)).2.1
      ⟨"is_pinned", by decide, textField "is_pinned", by decide, rfl⟩,
   (C17_tab_error_uses_base_schema exampleFields
      (some ⟨some [some [("is_pinned", "invalid")]]⟩) 0
      [textField "title", textField "is_pinned", textField "url", textField "item_type",
        textField "excluded_card_ids"]
      [("is_pinned", "invalid")] (by decide) (by decide)).2.2.2
      1 linkItemA ⟨[linkItemA]⟩ linkItemA [] (by decide) (by decide) (by decide)
      (by decide) (by decide) ⟨textField "is_pinned", by decide, rfl⟩⟩

/-- C18. The scoped schema depends on the prop `data` only through `data.id`: two runs
of the effect whose `data` have the same `id` give the same outcome, whatever the other
properties of `data` are. -/
theorem C18_depends_on_data_id_only (fuel : Nat) (data₁ data₂ : MenuItem)
    (modifiedData : MenuData) (fields : FieldSchema) (hid : data₁.id = data₂.id) :
    scopedFieldsEffect fuel data₁ modifiedData fields
      = scopedFieldsEffect fuel data₂ modifiedData fields := by
  simp only [scopedFieldsEffect, filteredFields, handleCardFieldsDisplay,
    handleIsPinnedDisplay, handleExcludeCardFieldDisplay, hid]

/-- Witness for C18: selecting `C` through a prop that calls it a titled link at the
root gives the scoped schema of the card `C`. -/
theorem C18_depends_on_data_id_only_witness :
    scopedFieldsEffect 3 ⟨.str "C", some "Other", some "link", none⟩ ⟨chainItems⟩ exampleFields
      = scopedFieldsEffect 3 itemC ⟨chainItems⟩ exampleFields :=
  C18_depends_on_data_id_only 3 ⟨.str "C", some "Other", some "link", none⟩ itemC
    ⟨chainItems⟩ exampleFields rfl

end StrapiMenus
